import Mathlib

/-!
Verification development for the `simple-html-editor` repository
(`src/main.py`).

The Python program is a fault-tolerant backtracking scanner over an
immutable text buffer.  Its mutable parser state is the pair of the
cursor `self._pos` and the append-only output list `self._result`;
failure is a raised `ParserError` that leaves the partially mutated
state in place.  We embed a parser as a function from that state to a
three-way result: a normal return, a raised `ParserError` (carrying the
state at the moment of the raise, exactly as the Python object would
hold it), or exhaustion of the explicit fuel parameter that drives
every `while` loop of the embedding.  `fuelOut` is an artifact of the
embedding only; the development proves that with fuel
`text.length + 1` it never occurs, which is the formal counterpart of
termination of the Python loops.

Text is `List Char`; the case-insensitive comparison in
`_match_single` uses `Char.toLower`, which lowers exactly the ASCII
range (all comparison prefixes of the grammar are ASCII).
-/

namespace HtmlEd

/-- `ParserElement(l, r, type)` of `src/main.py`: one classified span. -/
structure ParserElement where
  l : Nat
  r : Nat
  type : String
deriving DecidableEq, Repr

/-- The mutable state of `ParserBase`: cursor `_pos` and output `_result`. -/
structure PState where
  pos : Nat
  result : List ParserElement
deriving DecidableEq, Repr

/-- Outcome of running one parser method on a state: normal return,
raised `ParserError` (state at raise time), or fuel exhaustion
(embedding artifact, proved unreachable for sufficient fuel). -/
inductive PResult (α : Type) where
  | ok (a : α) (s : PState)
  | err (s : PState)
  | fuelOut (s : PState)
deriving DecidableEq, Repr

/-- A parser method: state in, result out (the buffer is a parameter). -/
def P (α : Type) : Type := PState → PResult α

/-- Sequencing of two parser methods; a raise aborts the rest, as in Python. -/
def pbind {α β : Type} (p : P α) (f : α → P β) : P β := fun s =>
  match p s with
  | .ok a s' => f a s'
  | .err s' => .err s'
  | .fuelOut s' => .fuelOut s'

/-- A method that returns a value without touching the state. -/
def pok {α : Type} (a : α) : P α := fun s => .ok a s

/-- The state carried by any outcome. -/
def outState {α : Type} : PResult α → PState
  | .ok _ s => s
  | .err s => s
  | .fuelOut s => s

/-- Prepend `r` to the result list of the outcome's state. -/
def shiftRes {α : Type} (r : List ParserElement) : PResult α → PResult α
  | .ok a s => .ok a ⟨s.pos, r ++ s.result⟩
  | .err s => .err ⟨s.pos, r ++ s.result⟩
  | .fuelOut s => .fuelOut ⟨s.pos, r ++ s.result⟩

/-- A rule whose behaviour depends only on the cursor: the result list it
enters with is carried along untouched underneath whatever it appends
(the Python methods only ever read `self._pos` and append to
`self._result`). -/
def Frame {α : Type} (p : P α) : Prop :=
  ∀ (pos : Nat) (r : List ParserElement), p ⟨pos, r⟩ = shiftRes r (p ⟨pos, []⟩)

/-! ### `ParserBase` primitives -/

/-- `_is_end`: cursor at or past the end of the buffer. -/
def _is_end (text : List Char) (s : PState) : Bool :=
  decide (text.length ≤ s.pos)

/-- ASCII lowering of a character list (Python `str.lower` on the ASCII
prefixes this grammar compares against). -/
def lowerL (l : List Char) : List Char := l.map Char.toLower

/-- Python slice `text[pos : pos + n]` (truncated at the end of the buffer). -/
def sliceFrom (text : List Char) (pos n : Nat) : List Char :=
  (text.drop pos).take n

/-- `_match_single(prefix, is_impotant_register)`: the slice at the cursor
equals the prefix, case-insensitively unless `cs`. -/
def _match_single (text : List Char) (pfx : List Char) (cs : Bool) (s : PState) : Bool :=
  let A := sliceFrom text s.pos pfx.length
  if cs then decide (A = pfx) else decide (lowerL A = lowerL pfx)

/-- `_match(prefixes, is_impotant_register)`: any candidate matches. -/
def _match (text : List Char) (pfxs : List (List Char)) (cs : Bool) (s : PState) : Bool :=
  pfxs.any (fun p => _match_single text p cs s)

/-- `_skip_len(cnt)`: advance by `cnt`, raising past the end. -/
def _skip_len (text : List Char) (cnt : Nat) : P Unit := fun s =>
  if text.length < s.pos + cnt then .err s
  else .ok () { s with pos := s.pos + cnt }

/-- `_skip_match(prefix)`: skip the prefix if it matches, else raise. -/
def _skip_match (text : List Char) (pfx : List Char) (cs : Bool) : P Unit := fun s =>
  if _match text [pfx] cs s then _skip_len text pfx.length s else .err s

/-- `_next()`: consume and return one character, raising at the end. -/
def _next (text : List Char) : P Char := fun s =>
  match text[s.pos]? with
  | some c => .ok c { s with pos := s.pos + 1 }
  | none => .err s

/-- `_char()`: the character under the cursor, if any. -/
def _char (text : List Char) (s : PState) : Option Char := text[s.pos]?

/-- `_can_skip_whitespace()`: not at the end and the current character is
in the whitespace set. -/
def _can_skip_whitespace (text ws : List Char) (s : PState) : Bool :=
  match text[s.pos]? with
  | some c => decide (c ∈ ws)
  | none => false

/-- `_try_skip_whitespaces()`: consume zero or more whitespace characters.
The loop is driven by fuel; one unit is spent per consumed character. -/
def _try_skip_whitespaces (text ws : List Char) : Nat → P Unit := fun fuel s =>
  if _can_skip_whitespace text ws s then
    match fuel with
    | 0 => .fuelOut s
    | fuel' + 1 => _try_skip_whitespaces text ws fuel' { s with pos := s.pos + 1 }
  else .ok () s

/-- `_skip_whitespaces()`: raise unless at least one whitespace character
can be consumed, then consume the run. -/
def _skip_whitespaces (text ws : List Char) (fuel : Nat) : P Unit := fun s =>
  if _can_skip_whitespace text ws s then _try_skip_whitespaces text ws fuel s
  else .err s

/-- `_end_filter(end)`: predicate holding on characters outside `ends`. -/
def _end_filter (ends : List Char) : Char → Bool := fun c => decide (c ∉ ends)

/-- The `while` loop of `_parse_text`: consume while the filter holds,
accumulating the consumed characters. -/
def _parse_text_loop (text : List Char) (flt : Char → Bool) :
    Nat → List Char → P (List Char) := fun fuel acc s =>
  match text[s.pos]? with
  | some c =>
    if flt c then
      match fuel with
      | 0 => .fuelOut s
      | fuel' + 1 => _parse_text_loop text flt fuel' (acc ++ [c]) { s with pos := s.pos + 1 }
    else .ok acc s
  | none => .ok acc s

/-- `_parse_text(text_filter, min_one)`: with `min_one`, raise unless a
first matching character is present, then loop. -/
def _parse_text (text : List Char) (flt : Char → Bool) (minOne : Bool) (fuel : Nat) :
    P (List Char) := fun s =>
  if minOne then
    match text[s.pos]? with
    | some c =>
      if flt c then _parse_text_loop text flt fuel [c] { s with pos := s.pos + 1 }
      else .err s
    | none => .err s
  else _parse_text_loop text flt fuel [] s

/-! ### The three decorators -/

/-- `parser_result_updater(element_type)`: run the wrapped rule and, if it
advanced the cursor, append a span for the advanced range; a raise
propagates without recording. -/
def parser_result_updater {α : Type} (ty : String) (p : P α) : P α := fun s =>
  match p s with
  | .ok a s' =>
    if s.pos < s'.pos then .ok a { s' with result := s'.result ++ [⟨s.pos, s'.pos, ty⟩] }
    else .ok a s'
  | .err s' => .err s'
  | .fuelOut s' => .fuelOut s'

/-- `parser_error_handler`: absorb a raise, appending an `error` span from
the entry position to the position of the raise; the wrapped rule's
return value becomes `none` on failure. -/
def parser_error_handler {α : Type} (p : P α) : P (Option α) := fun s =>
  match p s with
  | .ok a s' => .ok (some a) s'
  | .err s' => .ok none { s' with result := s'.result ++ [⟨s.pos, s'.pos, "error"⟩] }
  | .fuelOut s' => .fuelOut s'

/-- `parser_restorer`: on a raise, restore both the cursor and the span
list to their pre-call values and return `false`; on success keep the
advanced state and return `true`. -/
def parser_restorer {α : Type} (p : P α) : P Bool := fun s =>
  match p s with
  | .ok _ s' => .ok true s'
  | .err _ => .ok false s
  | .fuelOut s' => .fuelOut s'

/-! ### The `HTMLParser` grammar -/

/-- `HTMLParser.WHITESPACES = " \n\t"`. -/
def WHITESPACES : List Char := [' ', '\n', '\t']

/-- The terminator set `'!/<>"=' + WHITESPACES` of name runs. -/
def nameEnds : List Char := "!/<>\"=".data ++ WHITESPACES

/-- `__skip_name`: one run of name characters, at least one. -/
def __skip_name (text : List Char) (fuel : Nat) : P (List Char) :=
  _parse_text text (_end_filter nameEnds) true fuel

/-- `__skip_value`: a double-quoted run (quotes included in the returned
value) or an unquoted name run. -/
def __skip_value (text : List Char) (fuel : Nat) : P (List Char) := fun s =>
  if _match text ["\"".data] false s then
    (pbind (_skip_match text "\"".data false) fun _ =>
     pbind (_parse_text text (_end_filter "\"".data) false fuel) fun r =>
     pbind (_skip_match text "\"".data false) fun _ =>
     pok ('"' :: (r ++ ['"']))) s
  else _parse_text text (_end_filter nameEnds) true fuel s

/-- Body of `__try_parse_doctype` (inside its decorators): `<!doctype`,
mandatory whitespace, characters up to `>`, then `>`. -/
def doctypeBody (text : List Char) (fuel : Nat) : P Unit :=
  pbind (_skip_match text "<!doctype".data false) fun _ =>
  pbind (_skip_whitespaces text WHITESPACES fuel) fun _ =>
  pbind (_parse_text text (_end_filter ">".data) true fuel) fun _ =>
  _skip_match text ">".data false

/-- `__try_parse_doctype`: speculative (`parser_restorer`) around a
`doctype` span recorder; note there is no `parser_error_handler` here. -/
def __try_parse_doctype (text : List Char) (fuel : Nat) : P Bool :=
  parser_restorer (parser_result_updater "doctype" (doctypeBody text fuel))

/-- `__parse_tag_name`: name run recorded as a `tag_name` span. -/
def __parse_tag_name (text : List Char) (fuel : Nat) : P (List Char) :=
  parser_result_updater "tag_name" (__skip_name text fuel)

/-- `__parse_tag_param_name`: name run recorded as `tag_param_name`. -/
def __parse_tag_param_name (text : List Char) (fuel : Nat) : P (List Char) :=
  parser_result_updater "tag_param_name" (__skip_name text fuel)

/-- `__parse_tag_param_value`: value recorded as `tag_param_value`. -/
def __parse_tag_param_value (text : List Char) (fuel : Nat) : P (List Char) :=
  parser_result_updater "tag_param_value" (__skip_value text fuel)

/-- `if open_tag_name and open_tag_name != close_tag_name` of
`__parse_close_tag` (Python truthiness: `None` and `''` are falsy). -/
def closeNameMismatch (openName : Option (List Char)) (closeName : List Char) : Bool :=
  match openName with
  | some nm => !nm.isEmpty && decide (nm ≠ closeName)
  | none => false

/-- `__parse_close_tag(open_tag_name)`: `</`, optional whitespace, a
`tag_name` span, a case-sensitive name check against the open tag,
optional whitespace, `>`. -/
def __parse_close_tag (text : List Char) (fuel : Nat) (openName : Option (List Char)) :
    P Unit :=
  pbind (_skip_match text "</".data false) fun _ =>
  pbind (_try_skip_whitespaces text WHITESPACES fuel) fun _ =>
  pbind (__parse_tag_name text fuel) fun closeName =>
  pbind (fun s => if closeNameMismatch openName closeName then PResult.err s
                  else PResult.ok () s) fun _ =>
  pbind (_try_skip_whitespaces text WHITESPACES fuel) fun _ =>
  _skip_match text ">".data false

/-- `__try_parse_close_tag2`: the speculative close-tag lookahead. -/
def __try_parse_close_tag2 (text : List Char) (fuel : Nat)
    (openName : Option (List Char)) : P Bool :=
  parser_restorer (__parse_close_tag text fuel openName)

/-- `__try_parse_close_tag`: the tolerant close-tag form. -/
def __try_parse_close_tag (text : List Char) (fuel : Nat)
    (openName : Option (List Char)) : P (Option Unit) :=
  parser_error_handler (__parse_close_tag text fuel openName)

/-- The inner `while not is_end and char == '<'` of the raw-content rules:
consume a run of `<` characters. -/
def ltRun (text : List Char) : Nat → P Unit
  | 0 => fun s =>
    match text[s.pos]? with
    | some c => if c = '<' then .fuelOut s else .ok () s
    | none => .ok () s
  | fuel + 1 => fun s =>
    match text[s.pos]? with
    | some c =>
      if c = '<' then ltRun text fuel { s with pos := s.pos + 1 } else .ok () s
    | none => .ok () s

/-- The shared `while` loop of `__parse_script` / `__parse_style`
(identical in the source up to the close-tag name): consume up to the
next `<`; if the speculative close-tag lookahead for `closeName`
succeeds, reset only the cursor to the pre-lookahead position and stop
(the lookahead's spans are kept); otherwise consume the `<` run and
continue. -/
def rawLoop (text : List Char) (closeName : List Char) : Nat → P Unit
  | 0 => fun s => if _is_end text s then .ok () s else .fuelOut s
  | fuel + 1 => fun s =>
    if _is_end text s then .ok () s
    else
      match _parse_text text (_end_filter "<".data) false (fuel + 1) s with
      | .ok _ s1 =>
        match __try_parse_close_tag2 text (fuel + 1) (some closeName) s1 with
        | .ok b s2 =>
          if b then .ok () { s2 with pos := s1.pos }
          else
            match ltRun text (fuel + 1) s2 with
            | .ok _ s3 => rawLoop text closeName fuel s3
            | .err s3 => .err s3
            | .fuelOut s3 => .fuelOut s3
        | .err s2 => .err s2
        | .fuelOut s2 => .fuelOut s2
      | .err s1 => .err s1
      | .fuelOut s1 => .fuelOut s1

/-- `__parse_script`: the raw loop recorded as a `script` span. -/
def __parse_script (text : List Char) (fuel : Nat) : P Unit :=
  parser_result_updater "script" (rawLoop text "script".data fuel)

/-- `__parse_style`: the raw loop recorded as a `style` span. -/
def __parse_style (text : List Char) (fuel : Nat) : P Unit :=
  parser_result_updater "style" (rawLoop text "style".data fuel)

/-- The `while not self._match('-->')` loop of `__try_parse_comment`:
step one character at a time, raising at the end of the buffer. -/
def commentLoop (text : List Char) : Nat → P Unit
  | 0 => fun s =>
    if _match text ["-->".data] false s then .ok () s
    else
      match text[s.pos]? with
      | some _ => .fuelOut s
      | none => .err s
  | fuel + 1 => fun s =>
    if _match text ["-->".data] false s then .ok () s
    else
      match text[s.pos]? with
      | some _ => commentLoop text fuel { s with pos := s.pos + 1 }
      | none => .err s

/-- Body of `__try_parse_comment` (inside its decorators). -/
def commentBody (text : List Char) (fuel : Nat) : P Unit :=
  pbind (_skip_match text "<!--".data false) fun _ =>
  pbind (_try_skip_whitespaces text WHITESPACES fuel) fun _ =>
  pbind (commentLoop text fuel) fun _ =>
  pbind (_try_skip_whitespaces text WHITESPACES fuel) fun _ =>
  _skip_match text "-->".data false

/-- `__try_parse_comment`: speculative around a `comment` span recorder. -/
def __try_parse_comment (text : List Char) (fuel : Nat) : P Bool :=
  parser_restorer (parser_result_updater "comment" (commentBody text fuel))

/-- `__try_parse_user_text`: a possibly empty run up to the next `<`,
recorded as a `text` span when nonempty. -/
def __try_parse_user_text (text : List Char) (fuel : Nat) : P (List Char) :=
  parser_result_updater "text" (_parse_text text (_end_filter "<".data) false fuel)

/-- `__try_parse_tag_param`: a `tag_param_name` span, optional whitespace,
then optionally `=`, optional whitespace, a `tag_param_value` span and
optional whitespace. -/
def __try_parse_tag_param (text : List Char) (fuel : Nat) : P Unit :=
  pbind (__parse_tag_param_name text fuel) fun _ =>
  pbind (_try_skip_whitespaces text WHITESPACES fuel) fun _ =>
  fun s =>
    if _match text ["=".data] false s then
      (pbind (_skip_match text "=".data false) fun _ =>
       pbind (_try_skip_whitespaces text WHITESPACES fuel) fun _ =>
       pbind (__parse_tag_param_value text fuel) fun _ =>
       pbind (_try_skip_whitespaces text WHITESPACES fuel) fun _ =>
       pok ()) s
    else .ok () s

/-- The `while not is_end and not match(['/>', '>'])` loop of
`__try_parse_tag_params`. -/
def tagParamsLoop (text : List Char) : Nat → P Unit
  | 0 => fun s =>
    if _is_end text s then .ok () s
    else if _match text ["/>".data, ">".data] false s then .ok () s
    else .fuelOut s
  | fuel + 1 => fun s =>
    if _is_end text s then .ok () s
    else if _match text ["/>".data, ">".data] false s then .ok () s
    else
      (pbind (__try_parse_tag_param text (fuel + 1)) fun _ =>
       pbind (_try_skip_whitespaces text WHITESPACES (fuel + 1)) fun _ =>
       tagParamsLoop text fuel) s

/-- `__try_parse_tag_params`: tolerant wrapper around optional whitespace
and the parameter loop. -/
def __try_parse_tag_params (text : List Char) (fuel : Nat) : P (Option Unit) :=
  parser_error_handler
    (pbind (_try_skip_whitespaces text WHITESPACES fuel) fun _ =>
     tagParamsLoop text fuel)

/-- Body of `__try_parse_open_and_close_tag` (inside `parser_restorer`):
`<`, optional whitespace, tag name, optional whitespace, parameters,
then `/>`. -/
def openAndCloseBody (text : List Char) (fuel : Nat) : P Unit :=
  pbind (_skip_match text "<".data false) fun _ =>
  pbind (_try_skip_whitespaces text WHITESPACES fuel) fun _ =>
  pbind (__parse_tag_name text fuel) fun _ =>
  pbind (_try_skip_whitespaces text WHITESPACES fuel) fun _ =>
  pbind (__try_parse_tag_params text fuel) fun _ =>
  _skip_match text "/>".data false

/-- `__try_parse_open_and_close_tag`: speculative self-closing tag. -/
def __try_parse_open_and_close_tag (text : List Char) (fuel : Nat) : P Bool :=
  parser_restorer (openAndCloseBody text fuel)

/-- Body of `__try_parse_open_tag` (inside `parser_error_handler`):
like the self-closing form but ending in `>`, returning the tag name. -/
def openTagBody (text : List Char) (fuel : Nat) : P (List Char) :=
  pbind (_skip_match text "<".data false) fun _ =>
  pbind (_try_skip_whitespaces text WHITESPACES fuel) fun _ =>
  pbind (__parse_tag_name text fuel) fun name =>
  pbind (_try_skip_whitespaces text WHITESPACES fuel) fun _ =>
  pbind (__try_parse_tag_params text fuel) fun _ =>
  pbind (_skip_match text ">".data false) fun _ =>
  pok name

/-- `__try_parse_open_tag`: tolerant open tag, `none` on absorbed failure. -/
def __try_parse_open_tag (text : List Char) (fuel : Nat) : P (Option (List Char)) :=
  parser_error_handler (openTagBody text fuel)

/-- Body of `__parse_tag_block` (inside `parser_error_handler`): a close
tag if `</` is next; otherwise a speculative self-closing tag; otherwise
a tolerant open tag, and for `script`/`style` the raw-content rule
followed by a tolerant matching close tag. -/
def tagBlockBody (text : List Char) (fuel : Nat) : P Unit := fun s =>
  if _match text ["</".data] false s then
    (pbind (__try_parse_close_tag text fuel none) fun _ => pok ()) s
  else
    match __try_parse_open_and_close_tag text fuel s with
    | .ok true s' => .ok () s'
    | .ok false s' =>
      (pbind (__try_parse_open_tag text fuel) fun name =>
       match name with
       | some nm =>
         if nm = "script".data then
           pbind (__parse_script text fuel) fun _ =>
           pbind (__try_parse_close_tag text fuel (some nm)) fun _ => pok ()
         else if nm = "style".data then
           pbind (__parse_style text fuel) fun _ =>
           pbind (__try_parse_close_tag text fuel (some nm)) fun _ => pok ()
         else pok ()
       | none => pok ()) s'
    | .err s' => .err s'
    | .fuelOut s' => .fuelOut s'

/-- `__parse_tag_block`: tolerant wrapper around the tag-block body. -/
def __parse_tag_block (text : List Char) (fuel : Nat) : P (Option Unit) :=
  parser_error_handler (tagBlockBody text fuel)

/-- The `while not is_end and char == '<'` loop of
`__try_parse_tag_blocks`: speculative comment, tolerant tag block,
optional whitespace, then user text, repeated. -/
def tagBlocksLoop (text : List Char) : Nat → P Unit
  | 0 => fun s =>
    match text[s.pos]? with
    | some c => if c = '<' then .fuelOut s else .ok () s
    | none => .ok () s
  | fuel + 1 => fun s =>
    match text[s.pos]? with
    | some c =>
      if c = '<' then
        (pbind (__try_parse_comment text (fuel + 1)) fun _ =>
         pbind (__parse_tag_block text (fuel + 1)) fun _ =>
         pbind (_try_skip_whitespaces text WHITESPACES (fuel + 1)) fun _ =>
         pbind (__try_parse_user_text text (fuel + 1)) fun _ =>
         tagBlocksLoop text fuel) s
      else .ok () s
    | none => .ok () s

/-- `HTMLParser._parse`: optional whitespace, speculative doctype,
optional whitespace, user text, then the tag-block loop. -/
def _parse (text : List Char) (fuel : Nat) : P Unit :=
  pbind (_try_skip_whitespaces text WHITESPACES fuel) fun _ =>
  pbind (__try_parse_doctype text fuel) fun _ =>
  pbind (_try_skip_whitespaces text WHITESPACES fuel) fun _ =>
  pbind (__try_parse_user_text text fuel) fun _ =>
  tagBlocksLoop text fuel

/-- Constructing `HTMLParser(text)`: run `_parse` from cursor `0` with an
empty result list, with an explicit fuel budget. -/
def htmlParse (text : List Char) (fuel : Nat) : PResult Unit :=
  _parse text fuel { pos := 0, result := [] }

/-- The full-buffer parse with the canonical (sufficient) fuel budget
`text.length + 1`. -/
def HTMLParserRun (text : List Char) : PResult Unit :=
  htmlParse text (text.length + 1)

/-! ## `HTMLEditor.PositionConverter` -/

/-- `text.index('\n', start)` of `PositionConverter.__init__`: the first
index of the character at or after `start`, if any. -/
def strIndexFrom (text : List Char) (c : Char) (start : Nat) : Option Nat :=
  ((text.drop start).findIdx? (fun x => x == c)).map (fun i => i + start)

/-- The `while True` loop of `PositionConverter.__init__`, with
`start = last_pos + 1`: for each newline found, record
`new_pos - last_pos` (the length of the line including its trailing
newline) and continue after it.  The fuel is an embedding artifact; the
search always moves right, so `text.length + 1` is sufficient. -/
def nSizesLoop (text : List Char) : Nat → Nat → List Nat
  | 0, _ => []
  | fuel + 1, start =>
    match strIndexFrom text '\n' start with
    | some p => (p + 1 - start) :: nSizesLoop text fuel (p + 1)
    | none => []

/-- `__n_sizes`: the recorded line sizes of a text snapshot
(`last_pos` starts at `-1`, so the first search starts at offset 0). -/
def nSizes (text : List Char) : List Nat := nSizesLoop text (text.length + 1) 0

/-- The `for i in self.__n_sizes` loop of `convert`: subtract the next
line size while it is at most the remaining offset, incrementing the
line counter, and stop at the first size exceeding it. -/
def convertLoop : List Nat → Nat → Nat → Nat × Nat
  | [], line, index => (line, index)
  | i :: rest, line, index =>
    if i ≤ index then convertLoop rest (line + 1) (index - i) else (line, index)

/-- `convert(index)`: line starts at 1; the source formats the resulting
pair as the tkinter index string `f'{line}.{index}'`; we model the pair. -/
def convert (sizes : List Nat) (index : Nat) : Nat × Nat := convertLoop sizes 1 index

/-! ## The re-highlight diff of `HTMLEditor._update_colors` -/

/-- One highlight range, as the pair of tkinter `line.column` index
strings produced by `tag_ranges` / `PositionConverter.convert`. -/
abbrev Rng : Type := String × String

/-- A per-category mapping from tag name to its set of applied ranges
(`tags` and `tags_new` of `_update_colors`); Python sets are modelled as
lists considered up to membership. -/
abbrev TagMap : Type := List (String × List Rng)

/-- Dictionary lookup `tags[key]` (with `key in tags` as `isSome`). -/
def lookupTags (m : TagMap) (k : String) : Option (List Rng) :=
  (m.find? (fun e => e.1 == k)).map (fun e => e.2)

/-- `keys = set([*tags.keys(), *tags_new.keys()])`. -/
def diffKeys (old new : TagMap) : List String :=
  ((old.map Prod.fst) ++ (new.map Prod.fst)).dedup

/-- Python set difference `a.difference(b)` over range sets. -/
def rngDiff (a b : List Rng) : List Rng := a.filter (fun r => decide (r ∉ b))

/-- `tags_to_add` of `_update_colors`: per key of the union, the new
ranges if the key is absent from the old mapping, else `new − old`;
keys absent from the new mapping contribute nothing. -/
def tags_to_add (old new : TagMap) : List (String × List Rng) :=
  (diffKeys old new).filterMap fun k =>
    match lookupTags old k, lookupTags new k with
    | none, some nv => some (k, nv)
    | some ov, some nv => some (k, rngDiff nv ov)
    | _, none => none

/-- `tags_to_remove` of `_update_colors`: per key of the union, the old
ranges if the key is absent from the new mapping, else `old − new`;
keys absent from the old mapping contribute nothing. -/
def tags_to_remove (old new : TagMap) : List (String × List Rng) :=
  (diffKeys old new).filterMap fun k =>
    match lookupTags old k, lookupTags new k with
    | some ov, none => some (k, ov)
    | some ov, some nv => some (k, rngDiff ov nv)
    | none, _ => none

/-- One incremental highlighting operation applied to the text surface. -/
inductive TagOp where
  | removeOp (k : String) (r : Rng)
  | addOp (k : String) (r : Rng)
deriving DecidableEq, Repr

/-- Whether an operation is a removal. -/
def TagOp.isRemoveOp : TagOp → Bool
  | .removeOp _ _ => true
  | .addOp _ _ => false

/-- The sequence of `tag_remove` / `tag_add` calls at the end of
`_update_colors`: the two `for` loops apply every removal first, then
every addition. -/
def update_colors_ops (old new : TagMap) : List TagOp :=
  ((tags_to_remove old new).flatMap fun e => e.2.map (TagOp.removeOp e.1)) ++
  ((tags_to_add old new).flatMap fun e => e.2.map (TagOp.addOp e.1))

/-! ## Outcome predicates and the structural invariant -/

/-- The closed set of span categories that `HTMLParser` ever emits. -/
def categories : List String :=
  ["doctype", "tag_name", "tag_param_name", "tag_param_value",
   "comment", "text", "script", "style", "error"]

/-- A well-formed span of a buffer of length `len`: ordered bounds inside
the buffer, category from the closed set. -/
def SpanOK (len : Nat) (e : ParserElement) : Prop :=
  e.l ≤ e.r ∧ e.r ≤ len ∧ e.type ∈ categories

/-- The outcome is not a raised `ParserError`. -/
def notErr {α : Type} : PResult α → Prop
  | .err _ => False
  | _ => True

/-- The outcome is not fuel exhaustion. -/
def notFuelOut {α : Type} : PResult α → Prop
  | .fuelOut _ => False
  | _ => True

/-- The structural invariant of every parser method: from a state whose
cursor is inside the buffer, the cursor never moves backwards past the
entry position, stays inside the buffer, and the span list only grows,
by well-formed spans. -/
def Step (text : List Char) {α : Type} (p : P α) : Prop :=
  ∀ s : PState, s.pos ≤ text.length →
    s.pos ≤ (outState (p s)).pos ∧ (outState (p s)).pos ≤ text.length ∧
    ∃ Δ, (outState (p s)).result = s.result ++ Δ ∧ ∀ e ∈ Δ, SpanOK text.length e

theorem step_pok {α : Type} {text : List Char} (a : α) : Step text (pok a) := by
  intro s hs
  exact ⟨le_refl _, hs, [], by simp [pok, outState], by simp⟩

theorem step_pbind {α β : Type} {text : List Char} {p : P α} {f : α → P β}
    (hp : Step text p) (hf : ∀ a : α, Step text (f a)) : Step text (pbind p f) := by
  intro s hs
  unfold pbind
  cases hres : p s with
  | ok a s1 =>
    have h1 := hp s hs
    rw [hres] at h1
    simp only [outState] at h1
    obtain ⟨h1a, h1b, Δ1, h1c, h1d⟩ := h1
    obtain ⟨h2a, h2b, Δ2, h2c, h2d⟩ := hf a s1 h1b
    refine ⟨le_trans h1a h2a, h2b, Δ1 ++ Δ2, ?_, ?_⟩
    · rw [h2c, h1c, List.append_assoc]
    · intro e he
      rcases List.mem_append.mp he with h | h
      · exact h1d e h
      · exact h2d e h
  | err s1 =>
    have h1 := hp s hs
    rw [hres] at h1
    simpa only [outState] using h1
  | fuelOut s1 =>
    have h1 := hp s hs
    rw [hres] at h1
    simpa only [outState] using h1

theorem step_cond {α : Type} {text : List Char} {c : PState → Bool} {p q : P α}
    (hp : Step text p) (hq : Step text q) :
    Step text (fun s => if c s then p s else q s) := by
  intro s hs
  by_cases h : c s = true
  · simpa [h] using hp s hs
  · simp only [Bool.not_eq_true] at h
    simpa [h] using hq s hs

theorem step_updater {α : Type} {text : List Char} {p : P α} {ty : String}
    (hty : ty ∈ categories) (hp : Step text p) :
    Step text (parser_result_updater ty p) := by
  intro s hs
  unfold parser_result_updater
  cases hres : p s with
  | ok a s1 =>
    have h1 := hp s hs
    rw [hres] at h1
    simp only [outState] at h1
    obtain ⟨h1a, h1b, Δ1, h1c, h1d⟩ := h1
    by_cases hlt : s.pos < s1.pos
    · simp only [hlt, if_pos]
      refine ⟨h1a, h1b, Δ1 ++ [⟨s.pos, s1.pos, ty⟩], ?_, ?_⟩
      · simp only [outState, h1c, List.append_assoc]
      · intro e he
        rcases List.mem_append.mp he with h | h
        · exact h1d e h
        · simp only [List.mem_singleton] at h
          subst h
          exact ⟨le_of_lt hlt, h1b, hty⟩
    · simp only [hlt, if_neg, not_false_iff]
      exact ⟨h1a, h1b, Δ1, h1c, h1d⟩
  | err s1 =>
    have h1 := hp s hs
    rw [hres] at h1
    simpa only [outState] using h1
  | fuelOut s1 =>
    have h1 := hp s hs
    rw [hres] at h1
    simpa only [outState] using h1

theorem step_error_handler {α : Type} {text : List Char} {p : P α}
    (hp : Step text p) : Step text (parser_error_handler p) := by
  intro s hs
  unfold parser_error_handler
  cases hres : p s with
  | ok a s1 =>
    have h1 := hp s hs
    rw [hres] at h1
    simpa only [outState] using h1
  | err s1 =>
    have h1 := hp s hs
    rw [hres] at h1
    simp only [outState] at h1
    obtain ⟨h1a, h1b, Δ1, h1c, h1d⟩ := h1
    refine ⟨h1a, h1b, Δ1 ++ [⟨s.pos, s1.pos, "error"⟩], ?_, ?_⟩
    · simp only [outState, h1c, List.append_assoc]
    · intro e he
      rcases List.mem_append.mp he with h | h
      · exact h1d e h
      · simp only [List.mem_singleton] at h
        subst h
        exact ⟨h1a, h1b, by simp [categories]⟩
  | fuelOut s1 =>
    have h1 := hp s hs
    rw [hres] at h1
    simpa only [outState] using h1

theorem step_restorer {α : Type} {text : List Char} {p : P α}
    (hp : Step text p) : Step text (parser_restorer p) := by
  intro s hs
  unfold parser_restorer
  cases hres : p s with
  | ok a s1 =>
    have h1 := hp s hs
    rw [hres] at h1
    simpa only [outState] using h1
  | err s1 =>
    exact ⟨le_refl _, hs, [], by simp [outState], by simp⟩
  | fuelOut s1 =>
    have h1 := hp s hs
    rw [hres] at h1
    simpa only [outState] using h1

/-! ### Character-level helper facts -/

theorem pos_lt_of_getElem? {text : List Char} {i : Nat} {c : Char}
    (h : text[i]? = some c) : i < text.length := by
  rcases List.getElem?_eq_some.mp h with ⟨hlt, _⟩
  exact hlt

theorem lowerL_length (l : List Char) : (lowerL l).length = l.length := by
  simp [lowerL]

theorem match_single_true_le {text pfx : List Char} {cs : Bool} {s : PState}
    (hm : _match_single text pfx cs s = true) (hne : 1 ≤ pfx.length) :
    s.pos + pfx.length ≤ text.length := by
  have hlen : (sliceFrom text s.pos pfx.length).length = pfx.length := by
    unfold _match_single at hm
    cases cs with
    | true =>
      simp only [if_pos] at hm
      rw [of_decide_eq_true hm]
    | false =>
      simp only [Bool.false_eq_true, if_neg, not_false_iff] at hm
      have := of_decide_eq_true hm
      have hl := congrArg List.length this
      rwa [lowerL_length, lowerL_length] at hl
  unfold sliceFrom at hlen
  rw [List.length_take, List.length_drop] at hlen
  omega

theorem skip_match_ok {text pfx : List Char} {cs : Bool} {s : PState}
    (hm : _match text [pfx] cs s = true) (hne : 1 ≤ pfx.length) :
    _skip_match text pfx cs s = .ok () { s with pos := s.pos + pfx.length } := by
  have hms : _match_single text pfx cs s = true := by
    simpa [_match] using hm
  have hle := match_single_true_le hms hne
  simp [_skip_match, hm, _skip_len, Nat.not_lt.mpr hle]

theorem sliceFrom_one {text : List Char} {i : Nat} {c : Char}
    (h : text[i]? = some c) : sliceFrom text i 1 = [c] := by
  rcases List.getElem?_eq_some.mp h with ⟨hlt, hget⟩
  unfold sliceFrom
  rw [List.drop_eq_getElem_cons hlt]
  simp [hget]

theorem match_lt_true {text : List Char} {s : PState}
    (h : text[s.pos]? = some '<') : _match text ["<".data] false s = true := by
  have h1 : sliceFrom text s.pos 1 = ['<'] := sliceFrom_one h
  simp [_match, _match_single, h1]

/-! ### Step lemmas for the primitives -/

theorem step_skip_len {text : List Char} {cnt : Nat} :
    Step text (_skip_len text cnt) := by
  intro s hs
  unfold _skip_len
  by_cases h : text.length < s.pos + cnt
  · simp only [h, if_pos]
    exact ⟨le_refl _, hs, [], by simp [outState], by simp⟩
  · simp only [h, if_neg, not_false_iff]
    refine ⟨by simp [outState], by simp [outState]; omega, [], by simp [outState], by simp⟩

theorem step_skip_match {text pfx : List Char} {cs : Bool} :
    Step text (_skip_match text pfx cs) := by
  intro s hs
  unfold _skip_match
  by_cases h : _match text [pfx] cs s = true
  · simp only [h, if_pos]
    exact step_skip_len s hs
  · simp only [Bool.not_eq_true] at h
    simp only [h, Bool.false_eq_true, if_neg, not_false_iff]
    exact ⟨le_refl _, hs, [], by simp [outState], by simp⟩

theorem step_next {text : List Char} : Step text (_next text) := by
  intro s hs
  unfold _next
  cases h : text[s.pos]? with
  | some c =>
    have := pos_lt_of_getElem? h
    refine ⟨by simp [outState], by simp [outState]; omega, [], by simp [outState], by simp⟩
  | none =>
    exact ⟨le_refl _, hs, [], by simp [outState], by simp⟩

theorem can_skip_lt {text ws : List Char} {s : PState}
    (h : _can_skip_whitespace text ws s = true) : s.pos < text.length := by
  unfold _can_skip_whitespace at h
  cases hc : text[s.pos]? with
  | some c => exact pos_lt_of_getElem? hc
  | none => rw [hc] at h; simp at h

theorem step_try_skip_whitespaces {text ws : List Char} (fuel : Nat) :
    Step text (_try_skip_whitespaces text ws fuel) := by
  induction fuel with
  | zero =>
    intro s hs
    unfold _try_skip_whitespaces
    by_cases h : _can_skip_whitespace text ws s = true
    · simp only [h, if_pos]
      exact ⟨le_refl _, hs, [], by simp [outState], by simp⟩
    · simp only [Bool.not_eq_true] at h
      simp only [h, Bool.false_eq_true, if_neg, not_false_iff]
      exact ⟨le_refl _, hs, [], by simp [outState], by simp⟩
  | succ fuel ih =>
    intro s hs
    unfold _try_skip_whitespaces
    by_cases h : _can_skip_whitespace text ws s = true
    · simp only [h, if_pos]
      have hlt := can_skip_lt h
      have := ih { s with pos := s.pos + 1 } (by simpa using hlt)
      obtain ⟨ha, hb, Δ, hc, hd⟩ := this
      exact ⟨by simp at ha ⊢; omega, hb, Δ, hc, hd⟩
    · simp only [Bool.not_eq_true] at h
      simp only [h, Bool.false_eq_true, if_neg, not_false_iff]
      exact ⟨le_refl _, hs, [], by simp [outState], by simp⟩

theorem step_skip_whitespaces {text ws : List Char} (fuel : Nat) :
    Step text (_skip_whitespaces text ws fuel) := by
  intro s hs
  unfold _skip_whitespaces
  by_cases h : _can_skip_whitespace text ws s = true
  · simp only [h, if_pos]
    exact step_try_skip_whitespaces fuel s hs
  · simp only [Bool.not_eq_true] at h
    simp only [h, Bool.false_eq_true, if_neg, not_false_iff]
    exact ⟨le_refl _, hs, [], by simp [outState], by simp⟩

theorem step_parse_text_loop {text : List Char} {flt : Char → Bool} (fuel : Nat) :
    ∀ acc : List Char, Step text (_parse_text_loop text flt fuel acc) := by
  induction fuel with
  | zero =>
    intro acc s hs
    unfold _parse_text_loop
    cases h : text[s.pos]? with
    | some c =>
      by_cases hf : flt c = true
      · simp only [hf, if_pos]
        exact ⟨le_refl _, hs, [], by simp [outState], by simp⟩
      · simp only [Bool.not_eq_true] at hf
        simp only [hf, Bool.false_eq_true, if_neg, not_false_iff]
        exact ⟨le_refl _, hs, [], by simp [outState], by simp⟩
    | none =>
      exact ⟨le_refl _, hs, [], by simp [outState], by simp⟩
  | succ fuel ih =>
    intro acc s hs
    unfold _parse_text_loop
    cases h : text[s.pos]? with
    | some c =>
      by_cases hf : flt c = true
      · simp only [hf, if_pos]
        have hlt := pos_lt_of_getElem? h
        obtain ⟨ha, hb, Δ, hc, hd⟩ := ih (acc ++ [c]) { s with pos := s.pos + 1 }
          (by simpa using hlt)
        exact ⟨by simp at ha ⊢; omega, hb, Δ, hc, hd⟩
      · simp only [Bool.not_eq_true] at hf
        simp only [hf, Bool.false_eq_true, if_neg, not_false_iff]
        exact ⟨le_refl _, hs, [], by simp [outState], by simp⟩
    | none =>
      exact ⟨le_refl _, hs, [], by simp [outState], by simp⟩

theorem step_parse_text {text : List Char} {flt : Char → Bool} {minOne : Bool}
    (fuel : Nat) : Step text (_parse_text text flt minOne fuel) := by
  intro s hs
  unfold _parse_text
  cases minOne with
  | true =>
    simp only [if_pos]
    cases h : text[s.pos]? with
    | some c =>
      by_cases hf : flt c = true
      · simp only [hf, if_pos]
        have hlt := pos_lt_of_getElem? h
        obtain ⟨ha, hb, Δ, hc, hd⟩ := step_parse_text_loop fuel [c]
          { s with pos := s.pos + 1 } (by simpa using hlt)
        exact ⟨by simp at ha ⊢; omega, hb, Δ, hc, hd⟩
      · simp only [Bool.not_eq_true] at hf
        simp only [hf, Bool.false_eq_true, if_neg, not_false_iff]
        exact ⟨le_refl _, hs, [], by simp [outState], by simp⟩
    | none =>
      exact ⟨le_refl _, hs, [], by simp [outState], by simp⟩
  | false =>
    simp only [Bool.false_eq_true, if_neg, not_false_iff]
    exact step_parse_text_loop fuel [] s hs

theorem step_ltRun {text : List Char} (fuel : Nat) : Step text (ltRun text fuel) := by
  induction fuel with
  | zero =>
    intro s hs
    unfold ltRun
    cases h : text[s.pos]? with
    | some c =>
      by_cases hf : c = '<'
      · simp only [hf, if_pos]
        exact ⟨le_refl _, hs, [], by simp [outState], by simp⟩
      · simp only [hf, if_neg, not_false_iff]
        exact ⟨le_refl _, hs, [], by simp [outState], by simp⟩
    | none =>
      exact ⟨le_refl _, hs, [], by simp [outState], by simp⟩
  | succ fuel ih =>
    intro s hs
    unfold ltRun
    cases h : text[s.pos]? with
    | some c =>
      by_cases hf : c = '<'
      · simp only [hf, if_pos]
        have hlt := pos_lt_of_getElem? h
        obtain ⟨ha, hb, Δ, hc, hd⟩ := ih { s with pos := s.pos + 1 } (by simpa using hlt)
        exact ⟨by simp at ha ⊢; omega, hb, Δ, hc, hd⟩
      · simp only [hf, if_neg, not_false_iff]
        exact ⟨le_refl _, hs, [], by simp [outState], by simp⟩
    | none =>
      exact ⟨le_refl _, hs, [], by simp [outState], by simp⟩

theorem step_commentLoop {text : List Char} (fuel : Nat) :
    Step text (commentLoop text fuel) := by
  induction fuel with
  | zero =>
    intro s hs
    unfold commentLoop
    by_cases hm : _match text ["-->".data] false s = true
    · simp only [hm, if_pos]
      exact ⟨le_refl _, hs, [], by simp [outState], by simp⟩
    · simp only [Bool.not_eq_true] at hm
      simp only [hm, Bool.false_eq_true, if_neg, not_false_iff]
      cases h : text[s.pos]? with
      | some c => exact ⟨le_refl _, hs, [], by simp [outState], by simp⟩
      | none => exact ⟨le_refl _, hs, [], by simp [outState], by simp⟩
  | succ fuel ih =>
    intro s hs
    unfold commentLoop
    by_cases hm : _match text ["-->".data] false s = true
    · simp only [hm, if_pos]
      exact ⟨le_refl _, hs, [], by simp [outState], by simp⟩
    · simp only [Bool.not_eq_true] at hm
      simp only [hm, Bool.false_eq_true, if_neg, not_false_iff]
      cases h : text[s.pos]? with
      | some c =>
        have hlt := pos_lt_of_getElem? h
        obtain ⟨ha, hb, Δ, hc, hd⟩ := ih { s with pos := s.pos + 1 } (by simpa using hlt)
        exact ⟨by simp at ha ⊢; omega, hb, Δ, hc, hd⟩
      | none => exact ⟨le_refl _, hs, [], by simp [outState], by simp⟩

/-! ### Step lemmas for the grammar rules -/

theorem step_guard {text : List Char} {b : Bool} :
    Step text (fun s => if b then PResult.err s else PResult.ok () s) := by
  intro s hs
  cases b <;> exact ⟨le_refl _, hs, [], by simp [outState], by simp⟩

theorem step_skip_name {text : List Char} (fuel : Nat) :
    Step text (__skip_name text fuel) := by
  unfold __skip_name
  exact step_parse_text fuel

theorem step_skip_value {text : List Char} (fuel : Nat) :
    Step text (__skip_value text fuel) := by
  unfold __skip_value
  exact step_cond
    (step_pbind step_skip_match fun _ =>
     step_pbind (step_parse_text fuel) fun r =>
     step_pbind step_skip_match fun _ => step_pok _)
    (step_parse_text fuel)

theorem step_doctypeBody {text : List Char} (fuel : Nat) :
    Step text (doctypeBody text fuel) := by
  unfold doctypeBody
  exact step_pbind step_skip_match fun _ =>
    step_pbind (step_skip_whitespaces fuel) fun _ =>
    step_pbind (step_parse_text fuel) fun _ => step_skip_match

theorem step_try_parse_doctype {text : List Char} (fuel : Nat) :
    Step text (__try_parse_doctype text fuel) := by
  unfold __try_parse_doctype
  exact step_restorer (step_updater (by simp [categories]) (step_doctypeBody fuel))

theorem step_parse_tag_name {text : List Char} (fuel : Nat) :
    Step text (__parse_tag_name text fuel) := by
  unfold __parse_tag_name
  exact step_updater (by simp [categories]) (step_skip_name fuel)

theorem step_parse_tag_param_name {text : List Char} (fuel : Nat) :
    Step text (__parse_tag_param_name text fuel) := by
  unfold __parse_tag_param_name
  exact step_updater (by simp [categories]) (step_skip_name fuel)

theorem step_parse_tag_param_value {text : List Char} (fuel : Nat) :
    Step text (__parse_tag_param_value text fuel) := by
  unfold __parse_tag_param_value
  exact step_updater (by simp [categories]) (step_skip_value fuel)

theorem step_parse_close_tag {text : List Char} (fuel : Nat)
    (openName : Option (List Char)) :
    Step text (__parse_close_tag text fuel openName) := by
  unfold __parse_close_tag
  exact step_pbind step_skip_match fun _ =>
    step_pbind (step_try_skip_whitespaces fuel) fun _ =>
    step_pbind (step_parse_tag_name fuel) fun closeName =>
    step_pbind step_guard fun _ =>
    step_pbind (step_try_skip_whitespaces fuel) fun _ => step_skip_match

theorem step_try_parse_close_tag2 {text : List Char} (fuel : Nat)
    (openName : Option (List Char)) :
    Step text (__try_parse_close_tag2 text fuel openName) := by
  unfold __try_parse_close_tag2
  exact step_restorer (step_parse_close_tag fuel openName)

theorem step_try_parse_close_tag {text : List Char} (fuel : Nat)
    (openName : Option (List Char)) :
    Step text (__try_parse_close_tag text fuel openName) := by
  unfold __try_parse_close_tag
  exact step_error_handler (step_parse_close_tag fuel openName)

theorem step_rawLoop {text closeName : List Char} (fuel : Nat) :
    Step text (rawLoop text closeName fuel) := by
  induction fuel with
  | zero =>
    intro s hs
    unfold rawLoop
    by_cases he : _is_end text s = true
    · simp only [he, if_pos]
      exact ⟨le_refl _, hs, [], by simp [outState], by simp⟩
    · simp only [Bool.not_eq_true] at he
      simp only [he, Bool.false_eq_true, if_neg, not_false_iff]
      exact ⟨le_refl _, hs, [], by simp [outState], by simp⟩
  | succ fuel ih =>
    intro s hs
    unfold rawLoop
    by_cases he : _is_end text s = true
    · simp only [he, if_pos]
      exact ⟨le_refl _, hs, [], by simp [outState], by simp⟩
    · simp only [Bool.not_eq_true] at he
      simp only [he, Bool.false_eq_true, if_neg, not_false_iff]
      cases h1 : _parse_text text (_end_filter "<".data) false (fuel + 1) s with
      | ok v1 s1 =>
        dsimp only
        have hst1 := @step_parse_text text (_end_filter "<".data) false
          (fuel + 1) s hs
        rw [h1] at hst1
        simp only [outState] at hst1
        obtain ⟨h1a, h1b, Δ1, h1c, h1d⟩ := hst1
        cases h2 : __try_parse_close_tag2 text (fuel + 1) (some closeName) s1 with
        | ok b s2 =>
          dsimp only
          have hst2 := step_try_parse_close_tag2 (fuel + 1) (some closeName) s1 h1b
          rw [h2] at hst2
          simp only [outState] at hst2
          obtain ⟨h2a, h2b, Δ2, h2c, h2d⟩ := hst2
          cases b with
          | true =>
            simp only [if_pos]
            refine ⟨h1a, by simp [outState]; omega, Δ1 ++ Δ2, ?_, ?_⟩
            · simp only [outState, h2c, h1c, List.append_assoc]
            · intro e he'
              rcases List.mem_append.mp he' with h | h
              · exact h1d e h
              · exact h2d e h
          | false =>
            simp only [Bool.false_eq_true, if_neg, not_false_iff]
            cases h3 : ltRun text (fuel + 1) s2 with
            | ok v3 s3 =>
              dsimp only
              have hst3 := step_ltRun (fuel + 1) s2 h2b
              rw [h3] at hst3
              simp only [outState] at hst3
              obtain ⟨h3a, h3b, Δ3, h3c, h3d⟩ := hst3
              obtain ⟨h4a, h4b, Δ4, h4c, h4d⟩ := ih s3 h3b
              refine ⟨by omega, h4b, Δ1 ++ Δ2 ++ Δ3 ++ Δ4, ?_, ?_⟩
              · simp only [h4c, h3c, h2c, h1c, List.append_assoc]
              · intro e he'
                simp only [List.mem_append] at he'
                rcases he' with ((h | h) | h) | h
                · exact h1d e h
                · exact h2d e h
                · exact h3d e h
                · exact h4d e h
            | err s3 =>
              dsimp only
              have hst3 := step_ltRun (fuel + 1) s2 h2b
              rw [h3] at hst3
              simp only [outState] at hst3
              obtain ⟨h3a, h3b, Δ3, h3c, h3d⟩ := hst3
              refine ⟨by simp only [outState]; omega, by simpa only [outState] using h3b,
                Δ1 ++ Δ2 ++ Δ3, ?_, ?_⟩
              · simp only [outState, h3c, h2c, h1c, List.append_assoc]
              · intro e he'
                simp only [List.mem_append] at he'
                rcases he' with (h | h) | h
                · exact h1d e h
                · exact h2d e h
                · exact h3d e h
            | fuelOut s3 =>
              dsimp only
              have hst3 := step_ltRun (fuel + 1) s2 h2b
              rw [h3] at hst3
              simp only [outState] at hst3
              obtain ⟨h3a, h3b, Δ3, h3c, h3d⟩ := hst3
              refine ⟨by simp only [outState]; omega, by simpa only [outState] using h3b,
                Δ1 ++ Δ2 ++ Δ3, ?_, ?_⟩
              · simp only [outState, h3c, h2c, h1c, List.append_assoc]
              · intro e he'
                simp only [List.mem_append] at he'
                rcases he' with (h | h) | h
                · exact h1d e h
                · exact h2d e h
                · exact h3d e h
        | err s2 =>
          dsimp only
          have hst2 := step_try_parse_close_tag2 (fuel + 1) (some closeName) s1 h1b
          rw [h2] at hst2
          simp only [outState] at hst2
          obtain ⟨h2a, h2b, Δ2, h2c, h2d⟩ := hst2
          refine ⟨by simp only [outState]; omega, by simpa only [outState] using h2b,
            Δ1 ++ Δ2, ?_, ?_⟩
          · simp only [outState, h2c, h1c, List.append_assoc]
          · intro e he'
            rcases List.mem_append.mp he' with h | h
            · exact h1d e h
            · exact h2d e h
        | fuelOut s2 =>
          dsimp only
          have hst2 := step_try_parse_close_tag2 (fuel + 1) (some closeName) s1 h1b
          rw [h2] at hst2
          simp only [outState] at hst2
          obtain ⟨h2a, h2b, Δ2, h2c, h2d⟩ := hst2
          refine ⟨by simp only [outState]; omega, by simpa only [outState] using h2b,
            Δ1 ++ Δ2, ?_, ?_⟩
          · simp only [outState, h2c, h1c, List.append_assoc]
          · intro e he'
            rcases List.mem_append.mp he' with h | h
            · exact h1d e h
            · exact h2d e h
      | err s1 =>
        dsimp only
        have hst1 := @step_parse_text text (_end_filter "<".data) false
          (fuel + 1) s hs
        rw [h1] at hst1
        simpa only [outState] using hst1
      | fuelOut s1 =>
        dsimp only
        have hst1 := @step_parse_text text (_end_filter "<".data) false
          (fuel + 1) s hs
        rw [h1] at hst1
        simpa only [outState] using hst1

theorem step_parse_script {text : List Char} (fuel : Nat) :
    Step text (__parse_script text fuel) := by
  unfold __parse_script
  exact step_updater (by simp [categories]) (step_rawLoop fuel)

theorem step_parse_style {text : List Char} (fuel : Nat) :
    Step text (__parse_style text fuel) := by
  unfold __parse_style
  exact step_updater (by simp [categories]) (step_rawLoop fuel)

theorem step_commentBody {text : List Char} (fuel : Nat) :
    Step text (commentBody text fuel) := by
  unfold commentBody
  exact step_pbind step_skip_match fun _ =>
    step_pbind (step_try_skip_whitespaces fuel) fun _ =>
    step_pbind (step_commentLoop fuel) fun _ =>
    step_pbind (step_try_skip_whitespaces fuel) fun _ => step_skip_match

theorem step_try_parse_comment {text : List Char} (fuel : Nat) :
    Step text (__try_parse_comment text fuel) := by
  unfold __try_parse_comment
  exact step_restorer (step_updater (by simp [categories]) (step_commentBody fuel))

theorem step_try_parse_user_text {text : List Char} (fuel : Nat) :
    Step text (__try_parse_user_text text fuel) := by
  unfold __try_parse_user_text
  exact step_updater (by simp [categories]) (step_parse_text fuel)

theorem step_try_parse_tag_param {text : List Char} (fuel : Nat) :
    Step text (__try_parse_tag_param text fuel) := by
  unfold __try_parse_tag_param
  exact step_pbind (step_parse_tag_param_name fuel) fun _ =>
    step_pbind (step_try_skip_whitespaces fuel) fun _ =>
    step_cond
      (step_pbind step_skip_match fun _ =>
       step_pbind (step_try_skip_whitespaces fuel) fun _ =>
       step_pbind (step_parse_tag_param_value fuel) fun _ =>
       step_pbind (step_try_skip_whitespaces fuel) fun _ => step_pok _)
      (step_pok ())

theorem step_tagParamsLoop {text : List Char} (fuel : Nat) :
    Step text (tagParamsLoop text fuel) := by
  induction fuel with
  | zero =>
    intro s hs
    unfold tagParamsLoop
    by_cases he : _is_end text s = true
    · simp only [he, if_pos]
      exact ⟨le_refl _, hs, [], by simp [outState], by simp⟩
    · simp only [Bool.not_eq_true] at he
      by_cases hm : _match text ["/>".data, ">".data] false s = true
      · simp only [he, Bool.false_eq_true, if_neg, not_false_iff, hm, if_pos]
        exact ⟨le_refl _, hs, [], by simp [outState], by simp⟩
      · simp only [Bool.not_eq_true] at hm
        simp only [he, hm, Bool.false_eq_true, if_neg, not_false_iff]
        exact ⟨le_refl _, hs, [], by simp [outState], by simp⟩
  | succ fuel ih =>
    intro s hs
    unfold tagParamsLoop
    by_cases he : _is_end text s = true
    · simp only [he, if_pos]
      exact ⟨le_refl _, hs, [], by simp [outState], by simp⟩
    · simp only [Bool.not_eq_true] at he
      by_cases hm : _match text ["/>".data, ">".data] false s = true
      · simp only [he, Bool.false_eq_true, if_neg, not_false_iff, hm, if_pos]
        exact ⟨le_refl _, hs, [], by simp [outState], by simp⟩
      · simp only [Bool.not_eq_true] at hm
        simp only [he, hm, Bool.false_eq_true, if_neg, not_false_iff]
        exact (step_pbind (step_try_parse_tag_param (fuel + 1)) fun _ =>
          step_pbind (step_try_skip_whitespaces (fuel + 1)) fun _ => ih) s hs

theorem step_try_parse_tag_params {text : List Char} (fuel : Nat) :
    Step text (__try_parse_tag_params text fuel) := by
  unfold __try_parse_tag_params
  exact step_error_handler
    (step_pbind (step_try_skip_whitespaces fuel) fun _ => step_tagParamsLoop fuel)

theorem step_openAndCloseBody {text : List Char} (fuel : Nat) :
    Step text (openAndCloseBody text fuel) := by
  unfold openAndCloseBody
  exact step_pbind step_skip_match fun _ =>
    step_pbind (step_try_skip_whitespaces fuel) fun _ =>
    step_pbind (step_parse_tag_name fuel) fun _ =>
    step_pbind (step_try_skip_whitespaces fuel) fun _ =>
    step_pbind (step_try_parse_tag_params fuel) fun _ => step_skip_match

theorem step_try_parse_open_and_close_tag {text : List Char} (fuel : Nat) :
    Step text (__try_parse_open_and_close_tag text fuel) := by
  unfold __try_parse_open_and_close_tag
  exact step_restorer (step_openAndCloseBody fuel)

theorem step_openTagBody {text : List Char} (fuel : Nat) :
    Step text (openTagBody text fuel) := by
  unfold openTagBody
  exact step_pbind step_skip_match fun _ =>
    step_pbind (step_try_skip_whitespaces fuel) fun _ =>
    step_pbind (step_parse_tag_name fuel) fun name =>
    step_pbind (step_try_skip_whitespaces fuel) fun _ =>
    step_pbind (step_try_parse_tag_params fuel) fun _ =>
    step_pbind step_skip_match fun _ => step_pok _

theorem step_try_parse_open_tag {text : List Char} (fuel : Nat) :
    Step text (__try_parse_open_tag text fuel) := by
  unfold __try_parse_open_tag
  exact step_error_handler (step_openTagBody fuel)

theorem step_tagNameBranch {text : List Char} (fuel : Nat) :
    ∀ name : Option (List Char), Step text
      (match name with
       | some nm =>
         if nm = "script".data then
           pbind (__parse_script text fuel) fun _ =>
           pbind (__try_parse_close_tag text fuel (some nm)) fun _ => pok ()
         else if nm = "style".data then
           pbind (__parse_style text fuel) fun _ =>
           pbind (__try_parse_close_tag text fuel (some nm)) fun _ => pok ()
         else pok ()
       | none => pok () : P Unit) := by
  intro name
  cases name with
  | none => exact step_pok ()
  | some nm =>
    by_cases h1 : nm = "script".data
    · simp only [h1, if_pos]
      exact step_pbind (step_parse_script fuel) fun _ =>
        step_pbind (step_try_parse_close_tag fuel (some _)) fun _ => step_pok ()
    · by_cases h2 : nm = "style".data
      · simp only [h1, if_neg, not_false_iff, h2, if_pos]
        exact step_pbind (step_parse_style fuel) fun _ =>
          step_pbind (step_try_parse_close_tag fuel (some _)) fun _ => step_pok ()
      · simp only [h1, if_neg, not_false_iff, h2]
        exact step_pok ()

theorem step_tagBlockBody {text : List Char} (fuel : Nat) :
    Step text (tagBlockBody text fuel) := by
  have hbranch := @step_tagNameBranch text fuel
  intro s hs
  unfold tagBlockBody
  by_cases hm : _match text ["</".data] false s = true
  · simp only [hm, if_pos]
    exact (step_pbind (step_try_parse_close_tag fuel none) fun _ => step_pok ()) s hs
  · simp only [Bool.not_eq_true] at hm
    simp only [hm, Bool.false_eq_true, if_neg, not_false_iff]
    cases hoac : __try_parse_open_and_close_tag text fuel s with
    | ok b s1 =>
      dsimp only
      have hst1 := step_try_parse_open_and_close_tag fuel s hs
      rw [hoac] at hst1
      simp only [outState] at hst1
      obtain ⟨h1a, h1b, Δ1, h1c, h1d⟩ := hst1
      cases b with
      | true => exact ⟨h1a, h1b, Δ1, h1c, h1d⟩
      | false =>
        have hst2 := (step_pbind (step_try_parse_open_tag fuel) hbranch) s1 h1b
        obtain ⟨h2a, h2b, Δ2, h2c, h2d⟩ := hst2
        refine ⟨le_trans h1a h2a, h2b, Δ1 ++ Δ2, ?_, ?_⟩
        · rw [h2c, h1c, List.append_assoc]
        · intro e he'
          rcases List.mem_append.mp he' with h | h
          · exact h1d e h
          · exact h2d e h
    | err s1 =>
      dsimp only
      have hst1 := step_try_parse_open_and_close_tag fuel s hs
      rw [hoac] at hst1
      simpa only [outState] using hst1
    | fuelOut s1 =>
      dsimp only
      have hst1 := step_try_parse_open_and_close_tag fuel s hs
      rw [hoac] at hst1
      simpa only [outState] using hst1

theorem step_parse_tag_block {text : List Char} (fuel : Nat) :
    Step text (__parse_tag_block text fuel) := by
  unfold __parse_tag_block
  exact step_error_handler (step_tagBlockBody fuel)

theorem step_tagBlocksLoop {text : List Char} (fuel : Nat) :
    Step text (tagBlocksLoop text fuel) := by
  induction fuel with
  | zero =>
    intro s hs
    unfold tagBlocksLoop
    cases h : text[s.pos]? with
    | some c =>
      by_cases hc : c = '<'
      · simp only [hc, if_pos]
        exact ⟨le_refl _, hs, [], by simp [outState], by simp⟩
      · simp only [hc, if_neg, not_false_iff]
        exact ⟨le_refl _, hs, [], by simp [outState], by simp⟩
    | none =>
      exact ⟨le_refl _, hs, [], by simp [outState], by simp⟩
  | succ fuel ih =>
    intro s hs
    unfold tagBlocksLoop
    cases h : text[s.pos]? with
    | some c =>
      by_cases hc : c = '<'
      · simp only [hc, if_pos]
        exact (step_pbind (step_try_parse_comment (fuel + 1)) fun _ =>
          step_pbind (step_parse_tag_block (fuel + 1)) fun _ =>
          step_pbind (step_try_skip_whitespaces (fuel + 1)) fun _ =>
          step_pbind (step_try_parse_user_text (fuel + 1)) fun _ => ih) s hs
      · simp only [hc, if_neg, not_false_iff]
        exact ⟨le_refl _, hs, [], by simp [outState], by simp⟩
    | none =>
      exact ⟨le_refl _, hs, [], by simp [outState], by simp⟩

theorem step_parse_ {text : List Char} (fuel : Nat) : Step text (_parse text fuel) := by
  unfold _parse
  exact step_pbind (step_try_skip_whitespaces fuel) fun _ =>
    step_pbind (step_try_parse_doctype fuel) fun _ =>
    step_pbind (step_try_skip_whitespaces fuel) fun _ =>
    step_pbind (step_try_parse_user_text fuel) fun _ => step_tagBlocksLoop fuel

/-! ### Facts about the decorators' outcomes -/

theorem step_ok_le {α : Type} {text : List Char} {p : P α} (hp : Step text p)
    {s s' : PState} {a : α} (hs : s.pos ≤ text.length) (h : p s = .ok a s') :
    s.pos ≤ s'.pos ∧ s'.pos ≤ text.length := by
  have h1 := hp s hs
  rw [h] at h1
  exact ⟨h1.1, h1.2.1⟩

theorem updater_pos {α : Type} {ty : String} {p : P α} {s : PState} :
    (outState (parser_result_updater ty p s)).pos = (outState (p s)).pos := by
  unfold parser_result_updater
  cases hres : p s with
  | ok a s1 =>
    by_cases hlt : s.pos < s1.pos
    · simp [hlt, outState]
    · simp [hlt, outState]
  | err s1 => simp [outState]
  | fuelOut s1 => simp [outState]

theorem handler_pos {α : Type} {p : P α} {s : PState} :
    (outState (parser_error_handler p s)).pos = (outState (p s)).pos := by
  unfold parser_error_handler
  cases hres : p s with
  | ok a s1 => simp [outState]
  | err s1 => simp [outState]
  | fuelOut s1 => simp [outState]

theorem handler_ne {α : Type} {p : P α} {s : PState} :
    notErr (parser_error_handler p s) := by
  unfold parser_error_handler
  cases hres : p s with
  | ok a s1 => trivial
  | err s1 => trivial
  | fuelOut s1 => trivial

theorem restorer_ne {α : Type} {p : P α} {s : PState} :
    notErr (parser_restorer p s) := by
  unfold parser_restorer
  cases hres : p s with
  | ok a s1 => trivial
  | err s1 => trivial
  | fuelOut s1 => trivial

theorem restorer_false_eq {α : Type} {p : P α} {s s' : PState}
    (h : parser_restorer p s = .ok false s') : s' = s := by
  unfold parser_restorer at h
  cases hres : p s with
  | ok a s1 => rw [hres] at h; simp at h
  | err s1 => rw [hres] at h; simp at h; exact h.symm
  | fuelOut s1 => rw [hres] at h; simp at h

theorem restorer_true_ok {α : Type} {p : P α} {s s' : PState}
    (h : parser_restorer p s = .ok true s') : ∃ a : α, p s = .ok a s' := by
  unfold parser_restorer at h
  cases hres : p s with
  | ok a s1 => rw [hres] at h; simp at h; exact ⟨a, by rw [h]⟩
  | err s1 => rw [hres] at h; simp at h
  | fuelOut s1 => rw [hres] at h; simp at h

theorem updater_ok_cases {α : Type} {ty : String} {p : P α} {s s' : PState} {a : α}
    (h : parser_result_updater ty p s = .ok a s') :
    ∃ s1 : PState, p s = .ok a s1 ∧ s1.pos = s'.pos := by
  unfold parser_result_updater at h
  cases hres : p s with
  | ok a1 s1 =>
    rw [hres] at h
    by_cases hlt : s.pos < s1.pos
    · simp only [hlt, if_pos, PResult.ok.injEq] at h
      exact ⟨s1, by rw [h.1], by rw [← h.2]⟩
    · simp only [hlt, if_neg, not_false_iff, PResult.ok.injEq] at h
      exact ⟨s1, by rw [h.1], by rw [h.2]⟩
  | err s1 => rw [hres] at h; simp at h
  | fuelOut s1 => rw [hres] at h; simp at h

theorem handler_ok_pos {α : Type} {p : P α} {s s' : PState} {v : Option α}
    (h : parser_error_handler p s = .ok v s') :
    s'.pos = (outState (p s)).pos := by
  have := handler_pos (p := p) (s := s)
  rw [h] at this
  simpa only [outState] using this

theorem skip_match_ok_pos {text pfx : List Char} {cs : Bool} {s s' : PState} {u : Unit}
    (h : _skip_match text pfx cs s = .ok u s') :
    s'.pos = s.pos + pfx.length ∧ s'.pos ≤ text.length ∧ s'.result = s.result := by
  unfold _skip_match at h
  by_cases hm : _match text [pfx] cs s = true
  · rw [if_pos hm] at h
    unfold _skip_len at h
    by_cases hlen : text.length < s.pos + pfx.length
    · rw [if_pos hlen] at h; simp at h
    · rw [if_neg hlen] at h
      simp only [PResult.ok.injEq] at h
      rw [← h.2]
      exact ⟨rfl, by show s.pos + pfx.length ≤ text.length; omega, rfl⟩
  · simp only [Bool.not_eq_true] at hm
    rw [hm] at h
    simp at h

/-! ### No raised `ParserError` escapes the tolerant top level -/

theorem ne_pbind {α β : Type} {p : P α} {f : α → P β} {s : PState}
    (hp : notErr (p s))
    (hf : ∀ (a : α) (s' : PState), p s = .ok a s' → notErr (f a s')) :
    notErr (pbind p f s) := by
  unfold pbind
  cases hres : p s with
  | ok a s1 => exact hf a s1 hres
  | err s1 => rw [hres] at hp; exact hp.elim
  | fuelOut s1 => trivial

theorem ne_updater {α : Type} {ty : String} {p : P α} {s : PState}
    (hp : notErr (p s)) : notErr (parser_result_updater ty p s) := by
  unfold parser_result_updater
  cases hres : p s with
  | ok a s1 =>
    by_cases hlt : s.pos < s1.pos
    · simp only [hlt, if_pos]; trivial
    · simp only [hlt, if_neg, not_false_iff]; trivial
  | err s1 => rw [hres] at hp; exact hp.elim
  | fuelOut s1 => trivial

theorem ne_try_skip_whitespaces {text ws : List Char} :
    ∀ (fuel : Nat) (s : PState), notErr (_try_skip_whitespaces text ws fuel s) := by
  intro fuel
  induction fuel with
  | zero =>
    intro s
    unfold _try_skip_whitespaces
    by_cases h : _can_skip_whitespace text ws s = true
    · simp only [h, if_pos]; trivial
    · simp only [Bool.not_eq_true] at h
      simp only [h, Bool.false_eq_true, if_neg, not_false_iff]; trivial
  | succ fuel ih =>
    intro s
    unfold _try_skip_whitespaces
    by_cases h : _can_skip_whitespace text ws s = true
    · simp only [h, if_pos]; exact ih _
    · simp only [Bool.not_eq_true] at h
      simp only [h, Bool.false_eq_true, if_neg, not_false_iff]; trivial

theorem ne_parse_text_loop {text : List Char} {flt : Char → Bool} :
    ∀ (fuel : Nat) (acc : List Char) (s : PState),
      notErr (_parse_text_loop text flt fuel acc s) := by
  intro fuel
  induction fuel with
  | zero =>
    intro acc s
    unfold _parse_text_loop
    cases h : text[s.pos]? with
    | some c =>
      by_cases hf : flt c = true
      · simp only [hf, if_pos]; trivial
      · simp only [Bool.not_eq_true] at hf
        simp only [hf, Bool.false_eq_true, if_neg, not_false_iff]; trivial
    | none => trivial
  | succ fuel ih =>
    intro acc s
    unfold _parse_text_loop
    cases h : text[s.pos]? with
    | some c =>
      by_cases hf : flt c = true
      · simp only [hf, if_pos]; exact ih _ _
      · simp only [Bool.not_eq_true] at hf
        simp only [hf, Bool.false_eq_true, if_neg, not_false_iff]; trivial
    | none => trivial

theorem ne_parse_text_free {text : List Char} {flt : Char → Bool} {fuel : Nat}
    {s : PState} : notErr (_parse_text text flt false fuel s) := by
  unfold _parse_text
  simp only [Bool.false_eq_true, if_neg, not_false_iff]
  exact ne_parse_text_loop fuel [] s

theorem ne_ltRun {text : List Char} :
    ∀ (fuel : Nat) (s : PState), notErr (ltRun text fuel s) := by
  intro fuel
  induction fuel with
  | zero =>
    intro s
    unfold ltRun
    cases h : text[s.pos]? with
    | some c =>
      by_cases hf : c = '<'
      · simp only [hf, if_pos]; trivial
      · simp only [hf, if_neg, not_false_iff]; trivial
    | none => trivial
  | succ fuel ih =>
    intro s
    unfold ltRun
    cases h : text[s.pos]? with
    | some c =>
      by_cases hf : c = '<'
      · simp only [hf, if_pos]; exact ih _
      · simp only [hf, if_neg, not_false_iff]; trivial
    | none => trivial

theorem ne_user_text {text : List Char} {fuel : Nat} {s : PState} :
    notErr (__try_parse_user_text text fuel s) := by
  unfold __try_parse_user_text
  exact ne_updater ne_parse_text_free

theorem ne_tagBlocksLoop {text : List Char} :
    ∀ (fuel : Nat) (s : PState), notErr (tagBlocksLoop text fuel s) := by
  intro fuel
  induction fuel with
  | zero =>
    intro s
    unfold tagBlocksLoop
    cases h : text[s.pos]? with
    | some c =>
      by_cases hc : c = '<'
      · simp only [hc, if_pos]; trivial
      · simp only [hc, if_neg, not_false_iff]; trivial
    | none => trivial
  | succ fuel ih =>
    intro s
    unfold tagBlocksLoop
    cases h : text[s.pos]? with
    | some c =>
      by_cases hc : c = '<'
      · simp only [hc, if_pos]
        apply ne_pbind restorer_ne
        intro a1 s1 h1
        apply ne_pbind handler_ne
        intro a2 s2 h2
        apply ne_pbind (ne_try_skip_whitespaces _ _)
        intro a3 s3 h3
        apply ne_pbind ne_user_text
        intro a4 s4 h4
        exact ih s4
      · simp only [hc, if_neg, not_false_iff]; trivial
    | none => trivial

theorem ne_parse {text : List Char} (fuel : Nat) (s : PState) :
    notErr (_parse text fuel s) := by
  unfold _parse
  apply ne_pbind (ne_try_skip_whitespaces _ _)
  intro a1 s1 h1
  apply ne_pbind restorer_ne
  intro a2 s2 h2
  apply ne_pbind (ne_try_skip_whitespaces _ _)
  intro a3 s3 h3
  apply ne_pbind ne_user_text
  intro a4 s4 h4
  exact ne_tagBlocksLoop fuel s4

/-! ### Fuel sufficiency: with fuel at least the remaining buffer length,
no loop of the embedding exhausts its fuel -/

theorem fuel_step {len fuel a b : Nat} (hab : a ≤ b) (h : len - a ≤ fuel) :
    len - b ≤ fuel := by omega

theorem nf_pbind {α β : Type} {p : P α} {f : α → P β} {s : PState}
    (hp : notFuelOut (p s))
    (hf : ∀ (a : α) (s' : PState), p s = .ok a s' → notFuelOut (f a s')) :
    notFuelOut (pbind p f s) := by
  unfold pbind
  cases hres : p s with
  | ok a s1 => exact hf a s1 hres
  | err s1 => trivial
  | fuelOut s1 => rw [hres] at hp; exact hp.elim

theorem nf_pok {α : Type} {a : α} {s : PState} : notFuelOut (pok a s) := by
  unfold pok; trivial

theorem nf_skip_len {text : List Char} {cnt : Nat} {s : PState} :
    notFuelOut (_skip_len text cnt s) := by
  unfold _skip_len
  by_cases h : text.length < s.pos + cnt
  · simp only [h, if_pos]; trivial
  · simp only [h, if_neg, not_false_iff]; trivial

theorem nf_skip_match {text pfx : List Char} {cs : Bool} {s : PState} :
    notFuelOut (_skip_match text pfx cs s) := by
  unfold _skip_match
  by_cases h : _match text [pfx] cs s = true
  · simp only [h, if_pos]; exact nf_skip_len
  · simp only [Bool.not_eq_true] at h
    simp only [h, Bool.false_eq_true, if_neg, not_false_iff]; trivial

theorem nf_guard {b : Bool} {s : PState} :
    notFuelOut (if b then PResult.err s else PResult.ok () s) := by
  cases b <;> trivial

theorem nf_try_skip_whitespaces {text ws : List Char} :
    ∀ (fuel : Nat) (s : PState), text.length - s.pos ≤ fuel →
      notFuelOut (_try_skip_whitespaces text ws fuel s) := by
  intro fuel
  induction fuel with
  | zero =>
    intro s hf
    unfold _try_skip_whitespaces
    by_cases h : _can_skip_whitespace text ws s = true
    · have := can_skip_lt h
      omega
    · simp only [Bool.not_eq_true] at h
      simp only [h, Bool.false_eq_true, if_neg, not_false_iff]; trivial
  | succ fuel ih =>
    intro s hf
    unfold _try_skip_whitespaces
    by_cases h : _can_skip_whitespace text ws s = true
    · simp only [h, if_pos]
      exact ih { s with pos := s.pos + 1 } (by simp; omega)
    · simp only [Bool.not_eq_true] at h
      simp only [h, Bool.false_eq_true, if_neg, not_false_iff]; trivial

theorem nf_skip_whitespaces {text ws : List Char} (fuel : Nat) (s : PState)
    (hf : text.length - s.pos ≤ fuel) :
    notFuelOut (_skip_whitespaces text ws fuel s) := by
  unfold _skip_whitespaces
  by_cases h : _can_skip_whitespace text ws s = true
  · simp only [h, if_pos]
    exact nf_try_skip_whitespaces fuel s hf
  · simp only [Bool.not_eq_true] at h
    simp only [h, Bool.false_eq_true, if_neg, not_false_iff]; trivial

theorem nf_parse_text_loop {text : List Char} {flt : Char → Bool} :
    ∀ (fuel : Nat) (acc : List Char) (s : PState), text.length - s.pos ≤ fuel →
      notFuelOut (_parse_text_loop text flt fuel acc s) := by
  intro fuel
  induction fuel with
  | zero =>
    intro acc s hf
    unfold _parse_text_loop
    cases h : text[s.pos]? with
    | some c =>
      have := pos_lt_of_getElem? h
      omega
    | none => trivial
  | succ fuel ih =>
    intro acc s hf
    unfold _parse_text_loop
    cases h : text[s.pos]? with
    | some c =>
      by_cases hflt : flt c = true
      · simp only [hflt, if_pos]
        exact ih (acc ++ [c]) { s with pos := s.pos + 1 } (by simp; omega)
      · simp only [Bool.not_eq_true] at hflt
        simp only [hflt, Bool.false_eq_true, if_neg, not_false_iff]; trivial
    | none => trivial

theorem nf_parse_text {text : List Char} {flt : Char → Bool} {minOne : Bool}
    (fuel : Nat) (s : PState) (hf : text.length - s.pos ≤ fuel) :
    notFuelOut (_parse_text text flt minOne fuel s) := by
  unfold _parse_text
  cases minOne with
  | true =>
    simp only [if_pos]
    cases h : text[s.pos]? with
    | some c =>
      by_cases hflt : flt c = true
      · simp only [hflt, if_pos]
        exact nf_parse_text_loop fuel [c] { s with pos := s.pos + 1 } (by simp; omega)
      · simp only [Bool.not_eq_true] at hflt
        simp only [hflt, Bool.false_eq_true, if_neg, not_false_iff]; trivial
    | none => trivial
  | false =>
    simp only [Bool.false_eq_true, if_neg, not_false_iff]
    exact nf_parse_text_loop fuel [] s hf

theorem nf_ltRun {text : List Char} :
    ∀ (fuel : Nat) (s : PState), text.length - s.pos ≤ fuel →
      notFuelOut (ltRun text fuel s) := by
  intro fuel
  induction fuel with
  | zero =>
    intro s hf
    unfold ltRun
    cases h : text[s.pos]? with
    | some c =>
      have := pos_lt_of_getElem? h
      omega
    | none => trivial
  | succ fuel ih =>
    intro s hf
    unfold ltRun
    cases h : text[s.pos]? with
    | some c =>
      by_cases hc : c = '<'
      · simp only [hc, if_pos]
        exact ih { s with pos := s.pos + 1 } (by simp; omega)
      · simp only [hc, if_neg, not_false_iff]; trivial
    | none => trivial

theorem nf_commentLoop {text : List Char} :
    ∀ (fuel : Nat) (s : PState), text.length - s.pos ≤ fuel →
      notFuelOut (commentLoop text fuel s) := by
  intro fuel
  induction fuel with
  | zero =>
    intro s hf
    unfold commentLoop
    by_cases hm : _match text ["-->".data] false s = true
    · simp only [hm, if_pos]; trivial
    · simp only [Bool.not_eq_true] at hm
      simp only [hm, Bool.false_eq_true, if_neg, not_false_iff]
      cases h : text[s.pos]? with
      | some c =>
        have := pos_lt_of_getElem? h
        omega
      | none => trivial
  | succ fuel ih =>
    intro s hf
    unfold commentLoop
    by_cases hm : _match text ["-->".data] false s = true
    · simp only [hm, if_pos]; trivial
    · simp only [Bool.not_eq_true] at hm
      simp only [hm, Bool.false_eq_true, if_neg, not_false_iff]
      cases h : text[s.pos]? with
      | some c =>
        exact ih { s with pos := s.pos + 1 } (by simp; omega)
      | none => trivial

theorem nf_updater {α : Type} {ty : String} {p : P α} {s : PState}
    (hp : notFuelOut (p s)) : notFuelOut (parser_result_updater ty p s) := by
  unfold parser_result_updater
  cases hres : p s with
  | ok a s1 =>
    by_cases hlt : s.pos < s1.pos
    · simp only [hlt, if_pos]; trivial
    · simp only [hlt, if_neg, not_false_iff]; trivial
  | err s1 => trivial
  | fuelOut s1 => rw [hres] at hp; exact hp.elim

theorem nf_handler {α : Type} {p : P α} {s : PState}
    (hp : notFuelOut (p s)) : notFuelOut (parser_error_handler p s) := by
  unfold parser_error_handler
  cases hres : p s with
  | ok a s1 => trivial
  | err s1 => trivial
  | fuelOut s1 => rw [hres] at hp; exact hp.elim

theorem nf_restorer {α : Type} {p : P α} {s : PState}
    (hp : notFuelOut (p s)) : notFuelOut (parser_restorer p s) := by
  unfold parser_restorer
  cases hres : p s with
  | ok a s1 => trivial
  | err s1 => trivial
  | fuelOut s1 => rw [hres] at hp; exact hp.elim

theorem nf_skip_name {text : List Char} (fuel : Nat) (s : PState)
    (hf : text.length - s.pos ≤ fuel) : notFuelOut (__skip_name text fuel s) := by
  unfold __skip_name
  exact nf_parse_text fuel s hf

theorem nf_skip_value {text : List Char} (fuel : Nat) (s : PState)
    (hs : s.pos ≤ text.length) (hf : text.length - s.pos ≤ fuel) :
    notFuelOut (__skip_value text fuel s) := by
  unfold __skip_value
  by_cases hm : _match text ["\"".data] false s = true
  · simp only [hm, if_pos]
    apply nf_pbind nf_skip_match
    intro a1 s1 h1
    obtain ⟨h1a, h1b⟩ := step_ok_le step_skip_match hs h1
    apply nf_pbind (nf_parse_text fuel s1 (fuel_step h1a hf))
    intro a2 s2 h2
    obtain ⟨h2a, h2b⟩ := step_ok_le (step_parse_text fuel) h1b h2
    apply nf_pbind nf_skip_match
    intro a3 s3 h3
    exact nf_pok
  · simp only [Bool.not_eq_true] at hm
    simp only [hm, Bool.false_eq_true, if_neg, not_false_iff]
    exact nf_parse_text fuel s hf

theorem nf_doctypeBody {text : List Char} (fuel : Nat) (s : PState)
    (hs : s.pos ≤ text.length) (hf : text.length - s.pos ≤ fuel) :
    notFuelOut (doctypeBody text fuel s) := by
  unfold doctypeBody
  apply nf_pbind nf_skip_match
  intro a1 s1 h1
  obtain ⟨h1a, h1b⟩ := step_ok_le step_skip_match hs h1
  apply nf_pbind (nf_skip_whitespaces fuel s1 (fuel_step h1a hf))
  intro a2 s2 h2
  obtain ⟨h2a, h2b⟩ := step_ok_le (step_skip_whitespaces fuel) h1b h2
  apply nf_pbind (nf_parse_text fuel s2 (fuel_step (le_trans h1a h2a) hf))
  intro a3 s3 h3
  exact nf_skip_match

theorem nf_try_parse_doctype {text : List Char} (fuel : Nat) (s : PState)
    (hs : s.pos ≤ text.length) (hf : text.length - s.pos ≤ fuel) :
    notFuelOut (__try_parse_doctype text fuel s) := by
  unfold __try_parse_doctype
  exact nf_restorer (nf_updater (nf_doctypeBody fuel s hs hf))

theorem nf_parse_tag_name {text : List Char} (fuel : Nat) (s : PState)
    (hf : text.length - s.pos ≤ fuel) : notFuelOut (__parse_tag_name text fuel s) := by
  unfold __parse_tag_name
  exact nf_updater (nf_skip_name fuel s hf)

theorem nf_parse_tag_param_name {text : List Char} (fuel : Nat) (s : PState)
    (hf : text.length - s.pos ≤ fuel) :
    notFuelOut (__parse_tag_param_name text fuel s) := by
  unfold __parse_tag_param_name
  exact nf_updater (nf_skip_name fuel s hf)

theorem nf_parse_tag_param_value {text : List Char} (fuel : Nat) (s : PState)
    (hs : s.pos ≤ text.length) (hf : text.length - s.pos ≤ fuel) :
    notFuelOut (__parse_tag_param_value text fuel s) := by
  unfold __parse_tag_param_value
  exact nf_updater (nf_skip_value fuel s hs hf)

theorem nf_parse_close_tag {text : List Char} (fuel : Nat)
    (openName : Option (List Char)) (s : PState)
    (hs : s.pos ≤ text.length) (hf : text.length - s.pos ≤ fuel) :
    notFuelOut (__parse_close_tag text fuel openName s) := by
  unfold __parse_close_tag
  apply nf_pbind nf_skip_match
  intro a1 s1 h1
  obtain ⟨h1a, h1b⟩ := step_ok_le step_skip_match hs h1
  apply nf_pbind (nf_try_skip_whitespaces fuel s1 (fuel_step h1a hf))
  intro a2 s2 h2
  obtain ⟨h2a, h2b⟩ := step_ok_le (step_try_skip_whitespaces fuel) h1b h2
  apply nf_pbind (nf_parse_tag_name fuel s2 (fuel_step (le_trans h1a h2a) hf))
  intro a3 s3 h3
  obtain ⟨h3a, h3b⟩ := step_ok_le (step_parse_tag_name fuel) h2b h3
  apply nf_pbind nf_guard
  intro a4 s4 h4
  have h4e : s4 = s3 := by
    by_cases hg : closeNameMismatch openName a3 = true
    · rw [hg] at h4; simp at h4
    · simp only [Bool.not_eq_true] at hg
      rw [hg] at h4; simp at h4; exact h4.symm
  subst h4e
  apply nf_pbind (nf_try_skip_whitespaces fuel s4
    (fuel_step (le_trans h1a (le_trans h2a h3a)) hf))
  intro a5 s5 h5
  exact nf_skip_match

theorem nf_try_parse_close_tag2 {text : List Char} (fuel : Nat)
    (openName : Option (List Char)) (s : PState)
    (hs : s.pos ≤ text.length) (hf : text.length - s.pos ≤ fuel) :
    notFuelOut (__try_parse_close_tag2 text fuel openName s) := by
  unfold __try_parse_close_tag2
  exact nf_restorer (nf_parse_close_tag fuel openName s hs hf)

theorem nf_try_parse_close_tag {text : List Char} (fuel : Nat)
    (openName : Option (List Char)) (s : PState)
    (hs : s.pos ≤ text.length) (hf : text.length - s.pos ≤ fuel) :
    notFuelOut (__try_parse_close_tag text fuel openName s) := by
  unfold __try_parse_close_tag
  exact nf_handler (nf_parse_close_tag fuel openName s hs hf)

theorem nf_commentBody {text : List Char} (fuel : Nat) (s : PState)
    (hs : s.pos ≤ text.length) (hf : text.length - s.pos ≤ fuel) :
    notFuelOut (commentBody text fuel s) := by
  unfold commentBody
  apply nf_pbind nf_skip_match
  intro a1 s1 h1
  obtain ⟨h1a, h1b⟩ := step_ok_le step_skip_match hs h1
  apply nf_pbind (nf_try_skip_whitespaces fuel s1 (fuel_step h1a hf))
  intro a2 s2 h2
  obtain ⟨h2a, h2b⟩ := step_ok_le (step_try_skip_whitespaces fuel) h1b h2
  apply nf_pbind (nf_commentLoop fuel s2 (fuel_step (le_trans h1a h2a) hf))
  intro a3 s3 h3
  obtain ⟨h3a, h3b⟩ := step_ok_le (step_commentLoop fuel) h2b h3
  apply nf_pbind (nf_try_skip_whitespaces fuel s3
    (fuel_step (le_trans h1a (le_trans h2a h3a)) hf))
  intro a4 s4 h4
  exact nf_skip_match

theorem nf_try_parse_comment {text : List Char} (fuel : Nat) (s : PState)
    (hs : s.pos ≤ text.length) (hf : text.length - s.pos ≤ fuel) :
    notFuelOut (__try_parse_comment text fuel s) := by
  unfold __try_parse_comment
  exact nf_restorer (nf_updater (nf_commentBody fuel s hs hf))

theorem nf_user_text {text : List Char} (fuel : Nat) (s : PState)
    (hf : text.length - s.pos ≤ fuel) :
    notFuelOut (__try_parse_user_text text fuel s) := by
  unfold __try_parse_user_text
  exact nf_updater (nf_parse_text fuel s hf)

theorem nf_tag_param {text : List Char} (fuel : Nat) (s : PState)
    (hs : s.pos ≤ text.length) (hf : text.length - s.pos ≤ fuel) :
    notFuelOut (__try_parse_tag_param text fuel s) := by
  unfold __try_parse_tag_param
  apply nf_pbind (nf_parse_tag_param_name fuel s hf)
  intro a1 s1 h1
  obtain ⟨h1a, h1b⟩ := step_ok_le (step_parse_tag_param_name fuel) hs h1
  apply nf_pbind (nf_try_skip_whitespaces fuel s1 (fuel_step h1a hf))
  intro a2 s2 h2
  obtain ⟨h2a, h2b⟩ := step_ok_le (step_try_skip_whitespaces fuel) h1b h2
  by_cases hm : _match text ["=".data] false s2 = true
  · simp only [hm, if_pos]
    apply nf_pbind nf_skip_match
    intro a3 s3 h3
    obtain ⟨h3a, h3b⟩ := step_ok_le step_skip_match h2b h3
    apply nf_pbind (nf_try_skip_whitespaces fuel s3
      (fuel_step (le_trans h1a (le_trans h2a h3a)) hf))
    intro a4 s4 h4
    obtain ⟨h4a, h4b⟩ := step_ok_le (step_try_skip_whitespaces fuel) h3b h4
    apply nf_pbind (nf_parse_tag_param_value fuel s4 h4b
      (fuel_step (le_trans h1a (le_trans h2a (le_trans h3a h4a))) hf))
    intro a5 s5 h5
    obtain ⟨h5a, h5b⟩ := step_ok_le (step_parse_tag_param_value fuel) h4b h5
    apply nf_pbind (nf_try_skip_whitespaces fuel s5
      (fuel_step (le_trans h1a (le_trans h2a (le_trans h3a (le_trans h4a h5a)))) hf))
    intro a6 s6 h6
    exact nf_pok
  · simp only [Bool.not_eq_true] at hm
    simp only [hm, Bool.false_eq_true, if_neg, not_false_iff]; trivial

/-! ### Cursor-progress facts: every continuing loop iteration advances -/

theorem pbind_ok_destruct {α β : Type} {p : P α} {f : α → P β} {s s' : PState} {b : β}
    (h : pbind p f s = .ok b s') :
    ∃ (a : α) (sa : PState), p s = .ok a sa ∧ f a sa = .ok b s' := by
  unfold pbind at h
  cases hres : p s with
  | ok a sa => rw [hres] at h; exact ⟨a, sa, rfl, h⟩
  | err s1 => rw [hres] at h; simp at h
  | fuelOut s1 => rw [hres] at h; simp at h

theorem pbind_out_pos {α β : Type} {text : List Char} {p : P α} {f : α → P β}
    {s sa : PState} {a : α} (hp : p s = .ok a sa) (hstep : Step text (f a))
    (hsa : sa.pos ≤ text.length) :
    sa.pos ≤ (outState (pbind p f s)).pos ∧ (outState (pbind p f s)).pos ≤ text.length := by
  unfold pbind
  rw [hp]
  exact ⟨(hstep sa hsa).1, (hstep sa hsa).2.1⟩

theorem pbind_out_pos_all {α β : Type} {text : List Char} {p : P α} {f : α → P β}
    {s : PState} (hp : Step text p) (hf : ∀ a : α, Step text (f a))
    (hs : s.pos ≤ text.length) :
    (outState (p s)).pos ≤ (outState (pbind p f s)).pos := by
  unfold pbind
  cases hres : p s with
  | ok a sa =>
    dsimp only
    exact (hf a sa (step_ok_le hp hs hres).2).1
  | err sa => exact le_refl _
  | fuelOut sa => exact le_refl _

theorem restorer_fuelOut {α : Type} {p : P α} {s s' : PState}
    (h : parser_restorer p s = .fuelOut s') : p s = .fuelOut s' := by
  unfold parser_restorer at h
  cases hres : p s with
  | ok a s1 => rw [hres] at h; simp at h
  | err s1 => rw [hres] at h; simp at h
  | fuelOut s1 => rw [hres] at h; simp at h; rw [h]

theorem handler_fuelOut {α : Type} {p : P α} {s s' : PState}
    (h : parser_error_handler p s = .fuelOut s') : p s = .fuelOut s' := by
  unfold parser_error_handler at h
  cases hres : p s with
  | ok a s1 => rw [hres] at h; simp at h
  | err s1 => rw [hres] at h; simp at h
  | fuelOut s1 => rw [hres] at h; simp at h; rw [h]

theorem is_end_false_lt {text : List Char} {s : PState}
    (h : _is_end text s = false) : s.pos < text.length := by
  unfold _is_end at h
  simpa using of_decide_eq_false h

theorem parse_text_minOne_progress {text : List Char} {flt : Char → Bool} {fuel : Nat}
    {s s' : PState} {v : List Char}
    (h : _parse_text text flt true fuel s = .ok v s') (hs : s.pos ≤ text.length) :
    s.pos + 1 ≤ s'.pos := by
  unfold _parse_text at h
  simp only [if_pos] at h
  cases hc : text[s.pos]? with
  | some c =>
    rw [hc] at h
    dsimp only at h
    by_cases hflt : flt c = true
    · rw [if_pos hflt] at h
      have hlt := pos_lt_of_getElem? hc
      have := step_ok_le (step_parse_text_loop fuel [c])
        (s := { s with pos := s.pos + 1 }) (by simp; omega) h
      simp at this
      omega
    · rw [if_neg hflt] at h
      simp at h
  | none => rw [hc] at h; dsimp only at h; simp at h

theorem parse_text_loop_stall {text : List Char} {flt : Char → Bool} {fuel : Nat}
    {acc : List Char} {s s' : PState} {v : List Char}
    (h : _parse_text_loop text flt fuel acc s = .ok v s') (hpos : s'.pos = s.pos)
    {c : Char} (hc : text[s.pos]? = some c) : flt c = false := by
  unfold _parse_text_loop at h
  rw [hc] at h
  dsimp only at h
  by_cases hflt : flt c = true
  · exfalso
    rw [if_pos hflt] at h
    cases fuel with
    | zero => simp at h
    | succ fuel' =>
      have hlt := pos_lt_of_getElem? hc
      have := step_ok_le (step_parse_text_loop fuel' (acc ++ [c]))
        (s := { s with pos := s.pos + 1 }) (by simp; omega) h
      simp at this
      omega
  · simpa using hflt

theorem ltRun_progress {text : List Char} {fuel : Nat} {s s' : PState} {v : Unit}
    (hc : text[s.pos]? = some '<') (h : ltRun text fuel s = .ok v s') :
    s.pos + 1 ≤ s'.pos := by
  cases fuel with
  | zero =>
    unfold ltRun at h
    rw [hc] at h
    dsimp only at h
    simp at h
  | succ fuel' =>
    unfold ltRun at h
    rw [hc] at h
    dsimp only at h
    simp only [if_pos] at h
    have hlt := pos_lt_of_getElem? hc
    have := step_ok_le (step_ltRun fuel')
      (s := { s with pos := s.pos + 1 }) (by simp; omega) h
    simp at this
    omega

theorem openTagBody_pos {text : List Char} (fuel : Nat) {s : PState}
    (hc : text[s.pos]? = some '<') (hs : s.pos ≤ text.length) :
    s.pos + 1 ≤ (outState (openTagBody text fuel s)).pos := by
  unfold openTagBody
  have hm := match_lt_true hc
  have hsk := skip_match_ok hm (by decide)
  have hlt := pos_lt_of_getElem? hc
  have hl : ("<".data).length = 1 := by decide
  refine le_trans ?_ (@pbind_out_pos _ _ text _ _ _ _ _ hsk ?_ ?_).1
  · simp [hl]
  · exact step_pbind (step_try_skip_whitespaces fuel) fun _ =>
      step_pbind (step_parse_tag_name fuel) fun name =>
      step_pbind (step_try_skip_whitespaces fuel) fun _ =>
      step_pbind (step_try_parse_tag_params fuel) fun _ =>
      step_pbind step_skip_match fun _ => step_pok _
  · simp [hl]; omega

theorem oacBody_pos {text : List Char} (fuel : Nat) {s : PState}
    (hc : text[s.pos]? = some '<') (hs : s.pos ≤ text.length) :
    s.pos + 1 ≤ (outState (openAndCloseBody text fuel s)).pos := by
  unfold openAndCloseBody
  have hm := match_lt_true hc
  have hsk := skip_match_ok hm (by decide)
  have hlt := pos_lt_of_getElem? hc
  have hl : ("<".data).length = 1 := by decide
  refine le_trans ?_ (@pbind_out_pos _ _ text _ _ _ _ _ hsk ?_ ?_).1
  · simp [hl]
  · exact step_pbind (step_try_skip_whitespaces fuel) fun _ =>
      step_pbind (step_parse_tag_name fuel) fun _ =>
      step_pbind (step_try_skip_whitespaces fuel) fun _ =>
      step_pbind (step_try_parse_tag_params fuel) fun _ => step_skip_match
  · simp [hl]; omega

theorem closeTagBody_pos {text : List Char} (fuel : Nat)
    (openName : Option (List Char)) {s : PState}
    (hm : _match text ["</".data] false s = true) (hs : s.pos ≤ text.length) :
    s.pos + 2 ≤ (outState (__parse_close_tag text fuel openName s)).pos := by
  unfold __parse_close_tag
  have hsk := skip_match_ok hm (by decide)
  have hms : _match_single text "</".data false s = true := by simpa [_match] using hm
  have hle := match_single_true_le hms (by decide)
  have hl : ("</".data).length = 2 := by decide
  rw [hl] at hle
  refine le_trans ?_ (@pbind_out_pos _ _ text _ _ _ _ _ hsk ?_ ?_).1
  · simp [hl]
  · exact step_pbind (step_try_skip_whitespaces fuel) fun _ =>
      step_pbind (step_parse_tag_name fuel) fun closeName =>
      step_pbind step_guard fun _ =>
      step_pbind (step_try_skip_whitespaces fuel) fun _ => step_skip_match
  · simp [hl]; omega

theorem comment_true_progress {text : List Char} {fuel : Nat} {s s' : PState}
    (h : __try_parse_comment text fuel s = .ok true s') (hs : s.pos ≤ text.length) :
    s.pos + 1 ≤ s'.pos := by
  unfold __try_parse_comment at h
  obtain ⟨a, hbody⟩ := restorer_true_ok h
  obtain ⟨s1, hinner, hpos⟩ := updater_ok_cases hbody
  unfold commentBody at hinner
  obtain ⟨a1, sa, hskip, hrest⟩ := pbind_ok_destruct hinner
  obtain ⟨hpa, hpb, _⟩ := skip_match_ok_pos hskip
  have := step_ok_le (show Step text _ from
    (step_pbind (step_try_skip_whitespaces fuel) fun _ =>
     step_pbind (step_commentLoop fuel) fun _ =>
     step_pbind (step_try_skip_whitespaces fuel) fun _ => step_skip_match))
    hpb hrest
  have hlen : ("<!--".data).length = 4 := by decide
  omega

theorem tag_param_progress {text : List Char} {fuel : Nat} {s s' : PState} {a : Unit}
    (h : __try_parse_tag_param text fuel s = .ok a s') (hs : s.pos ≤ text.length) :
    s.pos + 1 ≤ s'.pos := by
  unfold __try_parse_tag_param at h
  obtain ⟨a1, s1, h1, hrest⟩ := pbind_ok_destruct h
  obtain ⟨s1', hname, hpos⟩ := updater_ok_cases h1
  have hprog := parse_text_minOne_progress hname hs
  have hb := step_ok_le (step_parse_tag_param_name fuel) hs h1
  have hrest2 := step_ok_le (show Step text _ from
    (step_pbind (step_try_skip_whitespaces fuel) fun _ =>
     step_cond
       (step_pbind step_skip_match fun _ =>
        step_pbind (step_try_skip_whitespaces fuel) fun _ =>
        step_pbind (step_parse_tag_param_value fuel) fun _ =>
        step_pbind (step_try_skip_whitespaces fuel) fun _ => step_pok _)
       (step_pok ())))
    hb.2 hrest
  omega

theorem tagBlockBody_pos {text : List Char} (fuel : Nat) {s : PState}
    (hc : text[s.pos]? = some '<') (hs : s.pos ≤ text.length) :
    s.pos + 1 ≤ (outState (tagBlockBody text fuel s)).pos := by
  unfold tagBlockBody
  by_cases hm : _match text ["</".data] false s = true
  · simp only [hm, if_pos]
    have hcl := closeTagBody_pos fuel none hm hs
    unfold __try_parse_close_tag
    unfold pbind
    cases hres : parser_error_handler (__parse_close_tag text fuel none) s with
    | ok a sa =>
      have := handler_ok_pos hres
      simp only [outState, pok]
      omega
    | err sa =>
      have := handler_ne (p := __parse_close_tag text fuel none) (s := s)
      rw [hres] at this
      exact this.elim
    | fuelOut sa =>
      have hfo := handler_fuelOut hres
      rw [hfo] at hcl
      simp only [outState] at hcl ⊢
      omega
  · simp only [Bool.not_eq_true] at hm
    simp only [hm, Bool.false_eq_true, if_neg, not_false_iff]
    cases hoac : __try_parse_open_and_close_tag text fuel s with
    | ok b s1 =>
      dsimp only
      cases b with
      | true =>
        obtain ⟨a, hbody⟩ := restorer_true_ok hoac
        have := oacBody_pos fuel hc hs
        rw [hbody] at this
        simpa only [outState] using this
      | false =>
        have hs1 := restorer_false_eq hoac
        subst hs1
        dsimp only
        have hopen := openTagBody_pos fuel hc hs
        have hhp : (outState (__try_parse_open_tag text fuel s1)).pos
            = (outState (openTagBody text fuel s1)).pos := by
          unfold __try_parse_open_tag
          exact handler_pos
        have hall := pbind_out_pos_all (step_try_parse_open_tag fuel)
          (step_tagNameBranch fuel) hs
        dsimp only at hall
        omega
    | err s1 =>
      dsimp only
      have := restorer_ne (p := openAndCloseBody text fuel) (s := s)
      rw [show parser_restorer (openAndCloseBody text fuel) s = .err s1 from hoac] at this
      exact this.elim
    | fuelOut s1 =>
      dsimp only
      have hfo := restorer_fuelOut hoac
      have := oacBody_pos fuel hc hs
      rw [hfo] at this
      simpa only [outState] using this

theorem tag_block_pos {text : List Char} (fuel : Nat) {s : PState}
    (hc : text[s.pos]? = some '<') (hs : s.pos ≤ text.length) :
    s.pos + 1 ≤ (outState (__parse_tag_block text fuel s)).pos := by
  unfold __parse_tag_block
  rw [handler_pos]
  exact tagBlockBody_pos fuel hc hs

theorem parse_text_false_stall {text : List Char} {flt : Char → Bool} {fuel : Nat}
    {s s' : PState} {v : List Char}
    (h : _parse_text text flt false fuel s = .ok v s') (hpos : s'.pos = s.pos)
    {c : Char} (hc : text[s.pos]? = some c) : flt c = false := by
  unfold _parse_text at h
  simp only [Bool.false_eq_true, if_neg, not_false_iff] at h
  exact parse_text_loop_stall h hpos hc

theorem end_filter_false_mem {ends : List Char} {c : Char}
    (h : _end_filter ends c = false) : c ∈ ends := by
  unfold _end_filter at h
  simpa using of_decide_eq_false h

/-! ### Fuel sufficiency for the compound loops -/

theorem nf_tagParamsLoop {text : List Char} :
    ∀ (fuel : Nat) (s : PState), s.pos ≤ text.length → text.length - s.pos ≤ fuel →
      notFuelOut (tagParamsLoop text fuel s) := by
  intro fuel
  induction fuel with
  | zero =>
    intro s hs hf
    unfold tagParamsLoop
    by_cases he : _is_end text s = true
    · simp only [he, if_pos]; trivial
    · simp only [Bool.not_eq_true] at he
      have := is_end_false_lt he
      omega
  | succ fuel ih =>
    intro s hs hf
    unfold tagParamsLoop
    by_cases he : _is_end text s = true
    · simp only [he, if_pos]; trivial
    · simp only [Bool.not_eq_true] at he
      by_cases hm : _match text ["/>".data, ">".data] false s = true
      · simp only [he, Bool.false_eq_true, if_neg, not_false_iff, hm, if_pos]; trivial
      · simp only [Bool.not_eq_true] at hm
        simp only [he, hm, Bool.false_eq_true, if_neg, not_false_iff]
        have hlt := is_end_false_lt he
        apply nf_pbind (nf_tag_param (fuel + 1) s hs (by omega))
        intro a1 s1 h1
        have hb1 := step_ok_le (step_try_parse_tag_param (fuel + 1)) hs h1
        have hp1 := tag_param_progress h1 hs
        apply nf_pbind (nf_try_skip_whitespaces (fuel + 1) s1 (by omega))
        intro a2 s2 h2
        have hb2 := step_ok_le (step_try_skip_whitespaces (fuel + 1)) hb1.2 h2
        exact ih s2 hb2.2 (by omega)

theorem nf_tag_params {text : List Char} (fuel : Nat) (s : PState)
    (hs : s.pos ≤ text.length) (hf : text.length - s.pos ≤ fuel) :
    notFuelOut (__try_parse_tag_params text fuel s) := by
  unfold __try_parse_tag_params
  apply nf_handler
  apply nf_pbind (nf_try_skip_whitespaces fuel s hf)
  intro a1 s1 h1
  have hb1 := step_ok_le (step_try_skip_whitespaces fuel) hs h1
  exact nf_tagParamsLoop fuel s1 hb1.2 (fuel_step hb1.1 hf)

theorem nf_openAndCloseBody {text : List Char} (fuel : Nat) (s : PState)
    (hs : s.pos ≤ text.length) (hf : text.length - s.pos ≤ fuel) :
    notFuelOut (openAndCloseBody text fuel s) := by
  unfold openAndCloseBody
  apply nf_pbind nf_skip_match
  intro a1 s1 h1
  have hb1 := step_ok_le step_skip_match hs h1
  apply nf_pbind (nf_try_skip_whitespaces fuel s1 (fuel_step hb1.1 hf))
  intro a2 s2 h2
  have hb2 := step_ok_le (step_try_skip_whitespaces fuel) hb1.2 h2
  apply nf_pbind (nf_parse_tag_name fuel s2 (fuel_step (le_trans hb1.1 hb2.1) hf))
  intro a3 s3 h3
  have hb3 := step_ok_le (step_parse_tag_name fuel) hb2.2 h3
  apply nf_pbind (nf_try_skip_whitespaces fuel s3
    (fuel_step (le_trans hb1.1 (le_trans hb2.1 hb3.1)) hf))
  intro a4 s4 h4
  have hb4 := step_ok_le (step_try_skip_whitespaces fuel) hb3.2 h4
  apply nf_pbind (nf_tag_params fuel s4 hb4.2
    (fuel_step (le_trans hb1.1 (le_trans hb2.1 (le_trans hb3.1 hb4.1))) hf))
  intro a5 s5 h5
  exact nf_skip_match

theorem nf_openTagBody {text : List Char} (fuel : Nat) (s : PState)
    (hs : s.pos ≤ text.length) (hf : text.length - s.pos ≤ fuel) :
    notFuelOut (openTagBody text fuel s) := by
  unfold openTagBody
  apply nf_pbind nf_skip_match
  intro a1 s1 h1
  have hb1 := step_ok_le step_skip_match hs h1
  apply nf_pbind (nf_try_skip_whitespaces fuel s1 (fuel_step hb1.1 hf))
  intro a2 s2 h2
  have hb2 := step_ok_le (step_try_skip_whitespaces fuel) hb1.2 h2
  apply nf_pbind (nf_parse_tag_name fuel s2 (fuel_step (le_trans hb1.1 hb2.1) hf))
  intro a3 s3 h3
  have hb3 := step_ok_le (step_parse_tag_name fuel) hb2.2 h3
  apply nf_pbind (nf_try_skip_whitespaces fuel s3
    (fuel_step (le_trans hb1.1 (le_trans hb2.1 hb3.1)) hf))
  intro a4 s4 h4
  have hb4 := step_ok_le (step_try_skip_whitespaces fuel) hb3.2 h4
  apply nf_pbind (nf_tag_params fuel s4 hb4.2
    (fuel_step (le_trans hb1.1 (le_trans hb2.1 (le_trans hb3.1 hb4.1))) hf))
  intro a5 s5 h5
  apply nf_pbind nf_skip_match
  intro a6 s6 h6
  exact nf_pok

theorem nf_open_tag {text : List Char} (fuel : Nat) (s : PState)
    (hs : s.pos ≤ text.length) (hf : text.length - s.pos ≤ fuel) :
    notFuelOut (__try_parse_open_tag text fuel s) := by
  unfold __try_parse_open_tag
  exact nf_handler (nf_openTagBody fuel s hs hf)

theorem nf_rawLoop {text closeName : List Char} :
    ∀ (fuel : Nat) (s : PState), s.pos ≤ text.length → text.length - s.pos ≤ fuel →
      notFuelOut (rawLoop text closeName fuel s) := by
  intro fuel
  induction fuel with
  | zero =>
    intro s hs hf
    unfold rawLoop
    by_cases he : _is_end text s = true
    · simp only [he, if_pos]; trivial
    · simp only [Bool.not_eq_true] at he
      have := is_end_false_lt he
      omega
  | succ fuel ih =>
    intro s hs hf
    unfold rawLoop
    by_cases he : _is_end text s = true
    · simp only [he, if_pos]; trivial
    · simp only [Bool.not_eq_true] at he
      simp only [he, Bool.false_eq_true, if_neg, not_false_iff]
      have hlt := is_end_false_lt he
      cases h1 : _parse_text text (_end_filter "<".data) false (fuel + 1) s with
      | ok v1 s1 =>
        dsimp only
        have hb1 := step_ok_le (step_parse_text (fuel + 1)) hs h1
        cases h2 : __try_parse_close_tag2 text (fuel + 1) (some closeName) s1 with
        | ok b s2 =>
          dsimp only
          cases b with
          | true => simp only [if_pos]; trivial
          | false =>
            simp only [Bool.false_eq_true, if_neg, not_false_iff]
            have hs2 := restorer_false_eq h2
            have hs2p : s2.pos = s1.pos := by rw [hs2]
            cases h3 : ltRun text (fuel + 1) s2 with
            | ok v3 s3 =>
              dsimp only
              have hb3 := step_ok_le (step_ltRun (fuel + 1))
                (s := s2) (by rw [hs2]; exact hb1.2) h3
              by_cases hstall : s1.pos = s.pos
              · have hc := List.getElem?_eq_getElem hlt
                have hflt := parse_text_false_stall h1 hstall hc
                have hmem := end_filter_false_mem hflt
                have hceq : text[s.pos] = '<' := by simpa using hmem
                have hc' : text[s2.pos]? = some '<' := by
                  rw [hs2, hstall, hc, hceq]
                have hprog := ltRun_progress hc' h3
                exact ih s3 hb3.2 (by omega)
              · have hadv : s.pos + 1 ≤ s1.pos := by
                  rcases Nat.lt_or_ge s.pos s1.pos with h | h
                  · omega
                  · omega
                exact ih s3 hb3.2 (by omega)
            | err s3 => trivial
            | fuelOut s3 =>
              have := @nf_ltRun text (fuel + 1) s2 (by rw [hs2]; omega)
              rw [h3] at this
              exact this.elim
        | err s2 => dsimp only; trivial
        | fuelOut s2 =>
          have := nf_try_parse_close_tag2 (fuel + 1) (some closeName) s1 hb1.2
            (fuel_step hb1.1 hf)
          rw [h2] at this
          exact this.elim
      | err s1 => dsimp only; trivial
      | fuelOut s1 =>
        have := @nf_parse_text text (_end_filter "<".data) false
          (fuel + 1) s hf
        rw [h1] at this
        exact this.elim

theorem nf_parse_script {text : List Char} (fuel : Nat) (s : PState)
    (hs : s.pos ≤ text.length) (hf : text.length - s.pos ≤ fuel) :
    notFuelOut (__parse_script text fuel s) := by
  unfold __parse_script
  exact nf_updater (nf_rawLoop fuel s hs hf)

theorem nf_parse_style {text : List Char} (fuel : Nat) (s : PState)
    (hs : s.pos ≤ text.length) (hf : text.length - s.pos ≤ fuel) :
    notFuelOut (__parse_style text fuel s) := by
  unfold __parse_style
  exact nf_updater (nf_rawLoop fuel s hs hf)

theorem nf_tagBlockBody {text : List Char} (fuel : Nat) (s : PState)
    (hs : s.pos ≤ text.length) (hf : text.length - s.pos ≤ fuel) :
    notFuelOut (tagBlockBody text fuel s) := by
  unfold tagBlockBody
  by_cases hm : _match text ["</".data] false s = true
  · simp only [hm, if_pos]
    apply nf_pbind (nf_try_parse_close_tag fuel none s hs hf)
    intro a1 s1 h1
    exact nf_pok
  · simp only [Bool.not_eq_true] at hm
    simp only [hm, Bool.false_eq_true, if_neg, not_false_iff]
    cases hoac : __try_parse_open_and_close_tag text fuel s with
    | ok b s1 =>
      dsimp only
      cases b with
      | true => trivial
      | false =>
        have hs1 := restorer_false_eq hoac
        apply nf_pbind (nf_open_tag fuel s1 (by rw [hs1]; exact hs) (by rw [hs1]; exact hf))
        intro name s2 h2
        have hb2 := step_ok_le (step_try_parse_open_tag fuel)
          (s := s1) (by rw [hs1]; exact hs) h2
        have hle2 : s.pos ≤ s2.pos := by rw [hs1] at hb2; exact hb2.1
        cases name with
        | some nm =>
          by_cases hsc : nm = "script".data
          · simp only [hsc, if_pos]
            apply nf_pbind (nf_parse_script fuel s2 hb2.2 (fuel_step hle2 hf))
            intro a3 s3 h3
            have hb3 := step_ok_le (step_parse_script fuel) hb2.2 h3
            apply nf_pbind (nf_try_parse_close_tag fuel (some _) s3 hb3.2
              (fuel_step (le_trans hle2 hb3.1) hf))
            intro a4 s4 h4
            exact nf_pok
          · by_cases hst : nm = "style".data
            · simp only [hsc, if_neg, not_false_iff, hst, if_pos]
              apply nf_pbind (nf_parse_style fuel s2 hb2.2 (fuel_step hle2 hf))
              intro a3 s3 h3
              have hb3 := step_ok_le (step_parse_style fuel) hb2.2 h3
              apply nf_pbind (nf_try_parse_close_tag fuel (some _) s3 hb3.2
                (fuel_step (le_trans hle2 hb3.1) hf))
              intro a4 s4 h4
              exact nf_pok
            · simp only [hsc, if_neg, not_false_iff, hst]
              exact nf_pok
        | none => exact nf_pok
    | err s1 => trivial
    | fuelOut s1 =>
      have : notFuelOut (__try_parse_open_and_close_tag text fuel s) := by
        unfold __try_parse_open_and_close_tag
        exact nf_restorer (nf_openAndCloseBody fuel s hs hf)
      rw [hoac] at this
      exact this.elim

theorem nf_tag_block {text : List Char} (fuel : Nat) (s : PState)
    (hs : s.pos ≤ text.length) (hf : text.length - s.pos ≤ fuel) :
    notFuelOut (__parse_tag_block text fuel s) := by
  unfold __parse_tag_block
  exact nf_handler (nf_tagBlockBody fuel s hs hf)

theorem nf_tagBlocksLoop {text : List Char} :
    ∀ (fuel : Nat) (s : PState), s.pos ≤ text.length → text.length - s.pos ≤ fuel →
      notFuelOut (tagBlocksLoop text fuel s) := by
  intro fuel
  induction fuel with
  | zero =>
    intro s hs hf
    unfold tagBlocksLoop
    cases h : text[s.pos]? with
    | some c =>
      by_cases hc : c = '<'
      · have := pos_lt_of_getElem? h
        omega
      · simp only [hc, if_neg, not_false_iff]; trivial
    | none => trivial
  | succ fuel ih =>
    intro s hs hf
    unfold tagBlocksLoop
    cases h : text[s.pos]? with
    | some c =>
      by_cases hc : c = '<'
      · simp only [hc, if_pos]
        have hlt := pos_lt_of_getElem? h
        have hchar : text[s.pos]? = some '<' := by rw [← hc]; exact h
        apply nf_pbind (nf_try_parse_comment (fuel + 1) s hs (by omega))
        intro b1 s1 h1
        have hb1 := step_ok_le (step_try_parse_comment (fuel + 1)) hs h1
        apply nf_pbind (nf_tag_block (fuel + 1) s1 hb1.2 (fuel_step hb1.1 (by omega)))
        intro v2 s2 h2
        have hb2 := step_ok_le (step_parse_tag_block (fuel + 1)) hb1.2 h2
        apply nf_pbind (nf_try_skip_whitespaces (fuel + 1) s2
          (fuel_step (le_trans hb1.1 hb2.1) (by omega)))
        intro v3 s3 h3
        have hb3 := step_ok_le (step_try_skip_whitespaces (fuel + 1)) hb2.2 h3
        apply nf_pbind (nf_user_text (fuel + 1) s3
          (fuel_step (le_trans hb1.1 (le_trans hb2.1 hb3.1)) (by omega)))
        intro v4 s4 h4
        have hb4 := step_ok_le (step_try_parse_user_text (fuel + 1)) hb3.2 h4
        have hprog : s.pos + 1 ≤ s4.pos := by
          cases b1 with
          | true =>
            have := comment_true_progress h1 hs
            omega
          | false =>
            have hs1 : s1 = s := restorer_false_eq h1
            have hblock := tag_block_pos (fuel + 1) (s := s1)
              (by rw [hs1]; exact hchar) (by rw [hs1]; exact hs)
            rw [h2] at hblock
            simp only [outState] at hblock
            rw [hs1] at hblock
            omega
        exact ih s4 hb4.2 (by omega)
      · simp only [hc, if_neg, not_false_iff]; trivial
    | none => trivial

theorem nf_parse {text : List Char} (fuel : Nat) (s : PState)
    (hs : s.pos ≤ text.length) (hf : text.length - s.pos ≤ fuel) :
    notFuelOut (_parse text fuel s) := by
  unfold _parse
  apply nf_pbind (nf_try_skip_whitespaces fuel s hf)
  intro a1 s1 h1
  have hb1 := step_ok_le (step_try_skip_whitespaces fuel) hs h1
  apply nf_pbind (nf_try_parse_doctype fuel s1 hb1.2 (fuel_step hb1.1 hf))
  intro a2 s2 h2
  have hb2 := step_ok_le (step_try_parse_doctype fuel) hb1.2 h2
  apply nf_pbind (nf_try_skip_whitespaces fuel s2 (fuel_step (le_trans hb1.1 hb2.1) hf))
  intro a3 s3 h3
  have hb3 := step_ok_le (step_try_skip_whitespaces fuel) hb2.2 h3
  apply nf_pbind (nf_user_text fuel s3
    (fuel_step (le_trans hb1.1 (le_trans hb2.1 hb3.1)) hf))
  intro a4 s4 h4
  have hb4 := step_ok_le (step_try_parse_user_text fuel) hb3.2 h4
  exact nf_tagBlocksLoop fuel s4 hb4.2
    (fuel_step (le_trans hb1.1 (le_trans hb2.1 (le_trans hb3.1 hb4.1))) hf)

/-! ### Evaluation helpers: single parser steps as rewrite rules -/

theorem pbind_ok {α β : Type} {p : P α} {f : α → P β} {s s1 : PState} {a : α}
    (h : p s = .ok a s1) : pbind p f s = f a s1 := by
  unfold pbind
  rw [h]

theorem updater_eq_ok {α : Type} {ty : String} {p : P α} {s s1 : PState} {a : α}
    (h : p s = .ok a s1) (hlt : s.pos < s1.pos) :
    parser_result_updater ty p s =
      .ok a { s1 with result := s1.result ++ [⟨s.pos, s1.pos, ty⟩] } := by
  unfold parser_result_updater
  rw [h]
  dsimp only
  rw [if_pos hlt]

theorem updater_eq_ok_stay {α : Type} {ty : String} {p : P α} {s s1 : PState} {a : α}
    (h : p s = .ok a s1) (hge : ¬s.pos < s1.pos) :
    parser_result_updater ty p s = .ok a s1 := by
  unfold parser_result_updater
  rw [h]
  dsimp only
  rw [if_neg hge]

theorem handler_eq_ok {α : Type} {p : P α} {s s1 : PState} {a : α}
    (h : p s = .ok a s1) : parser_error_handler p s = .ok (some a) s1 := by
  unfold parser_error_handler
  rw [h]

theorem restorer_eq_ok {α : Type} {p : P α} {s s1 : PState} {a : α}
    (h : p s = .ok a s1) : parser_restorer p s = .ok true s1 := by
  unfold parser_restorer
  rw [h]

theorem restorer_eq_err {α : Type} {p : P α} {s s1 : PState}
    (h : p s = .err s1) : parser_restorer p s = .ok false s := by
  unfold parser_restorer
  rw [h]

theorem parse_text_loop_cons {text : List Char} {flt : Char → Bool} {acc : List Char}
    {s : PState} {c : Char} (fuel : Nat)
    (h : text[s.pos]? = some c) (hf : flt c = true) :
    _parse_text_loop text flt (fuel + 1) acc s =
      _parse_text_loop text flt fuel (acc ++ [c]) { s with pos := s.pos + 1 } := by
  conv_lhs => unfold _parse_text_loop
  rw [h]
  dsimp only
  rw [hf]
  rw [if_pos rfl]

theorem tagBlocksLoop_iter {text : List Char} {fuel : Nat} {s s1 s2 s3 s4 : PState}
    {b1 : Bool} {v2 : Option Unit} {v3 : Unit} {v4 : List Char}
    (h : text[s.pos]? = some '<')
    (h1 : __try_parse_comment text (fuel + 1) s = .ok b1 s1)
    (h2 : __parse_tag_block text (fuel + 1) s1 = .ok v2 s2)
    (h3 : _try_skip_whitespaces text WHITESPACES (fuel + 1) s2 = .ok v3 s3)
    (h4 : __try_parse_user_text text (fuel + 1) s3 = .ok v4 s4) :
    tagBlocksLoop text (fuel + 1) s = tagBlocksLoop text fuel s4 := by
  conv_lhs => unfold tagBlocksLoop
  rw [h]
  dsimp only
  rw [if_pos rfl]
  rw [pbind_ok h1, pbind_ok h2, pbind_ok h3, pbind_ok h4]

theorem tagBlocksLoop_none {text : List Char} {fuel : Nat} {s : PState}
    (h : text[s.pos]? = none) : tagBlocksLoop text fuel s = .ok () s := by
  cases fuel with
  | zero => unfold tagBlocksLoop; rw [h]
  | succ fuel => unfold tagBlocksLoop; rw [h]

theorem rawLoop_step {text closeName : List Char} {fuel : Nat} {s s1 s2 : PState}
    {v1 : List Char} (he : _is_end text s = false)
    (h1 : _parse_text text (_end_filter "<".data) false (fuel + 1) s = .ok v1 s1)
    (h2 : __try_parse_close_tag2 text (fuel + 1) (some closeName) s1 = .ok true s2) :
    rawLoop text closeName (fuel + 1) s = .ok () { s2 with pos := s1.pos } := by
  conv_lhs => unfold rawLoop
  rw [he]
  rw [if_neg (by simp)]
  rw [h1]
  dsimp only
  rw [h2]
  dsimp only
  rw [if_pos rfl]

theorem rawLoop_cont {text closeName : List Char} {fuel : Nat} {s s1 s2 s3 : PState}
    {v1 : List Char} {v3 : Unit} (he : _is_end text s = false)
    (h1 : _parse_text text (_end_filter "<".data) false (fuel + 1) s = .ok v1 s1)
    (h2 : __try_parse_close_tag2 text (fuel + 1) (some closeName) s1 = .ok false s2)
    (h3 : ltRun text (fuel + 1) s2 = .ok v3 s3) :
    rawLoop text closeName (fuel + 1) s = rawLoop text closeName fuel s3 := by
  conv_lhs => unfold rawLoop
  rw [he]
  rw [if_neg (by simp)]
  rw [h1]
  dsimp only
  rw [h2]
  dsimp only
  rw [if_neg (by simp)]
  rw [h3]

/-! ### Facts about the re-highlight diff -/

theorem mem_rngDiff {a b : List Rng} {r : Rng} :
    r ∈ rngDiff a b ↔ r ∈ a ∧ r ∉ b := by
  simp [rngDiff]

theorem rngDiff_self (v : List Rng) : rngDiff v v = [] := by
  rw [List.eq_nil_iff_forall_not_mem]
  intro r hr
  rw [mem_rngDiff] at hr
  exact hr.2 hr.1

theorem lookupTags_mem_fst {m : TagMap} {k : String} {v : List Rng}
    (h : lookupTags m k = some v) : k ∈ m.map Prod.fst := by
  unfold lookupTags at h
  cases hf : m.find? (fun e => e.1 == k) with
  | none => rw [hf] at h; simp at h
  | some e =>
    have hmem := List.mem_of_find?_eq_some hf
    have hp := List.find?_some hf
    simp only [beq_iff_eq] at hp
    rw [← hp]
    exact List.mem_map_of_mem Prod.fst hmem

theorem mem_diffKeys_of_old {old new : TagMap} {k : String} {v : List Rng}
    (h : lookupTags old k = some v) : k ∈ diffKeys old new := by
  unfold diffKeys
  rw [List.mem_dedup, List.mem_append]
  exact Or.inl (lookupTags_mem_fst h)

theorem mem_diffKeys_of_new {old new : TagMap} {k : String} {v : List Rng}
    (h : lookupTags new k = some v) : k ∈ diffKeys old new := by
  unfold diffKeys
  rw [List.mem_dedup, List.mem_append]
  exact Or.inr (lookupTags_mem_fst h)

theorem tags_to_add_key {old new : TagMap} {k : String} {e : String × List Rng}
    (h : e ∈ tags_to_add old new) :
    e.1 = k → (match lookupTags old k, lookupTags new k with
      | none, some nv => some (k, nv)
      | some ov, some nv => some (k, rngDiff nv ov)
      | _, none => none) = some e := by
  intro hk
  unfold tags_to_add at h
  rw [List.mem_filterMap] at h
  obtain ⟨k', hk', hf⟩ := h
  have : k' = k := by
    cases h1 : lookupTags old k' with
    | none =>
      cases h2 : lookupTags new k' with
      | none => rw [h1, h2] at hf; simp at hf
      | some nv => rw [h1, h2] at hf; simp at hf; rw [← hk, ← hf]
    | some ov =>
      cases h2 : lookupTags new k' with
      | none => rw [h1, h2] at hf; simp at hf
      | some nv => rw [h1, h2] at hf; simp at hf; rw [← hk, ← hf]
  rw [← this, hf]

theorem tags_to_remove_key {old new : TagMap} {k : String} {e : String × List Rng}
    (h : e ∈ tags_to_remove old new) :
    e.1 = k → (match lookupTags old k, lookupTags new k with
      | some ov, none => some (k, ov)
      | some ov, some nv => some (k, rngDiff ov nv)
      | none, _ => none) = some e := by
  intro hk
  unfold tags_to_remove at h
  rw [List.mem_filterMap] at h
  obtain ⟨k', hk', hf⟩ := h
  have : k' = k := by
    cases h1 : lookupTags old k' with
    | none => rw [h1] at hf; simp at hf
    | some ov =>
      cases h2 : lookupTags new k' with
      | none => rw [h1, h2] at hf; simp at hf; rw [← hk, ← hf]
      | some nv => rw [h1, h2] at hf; simp at hf; rw [← hk, ← hf]
  rw [← this, hf]

theorem flatMap_eq_nil_of_forall {α β : Type} {l : List α} {f : α → List β}
    (h : ∀ e ∈ l, f e = []) : l.flatMap f = [] := by
  induction l with
  | nil => rfl
  | cons x xs ih =>
    rw [List.flatMap_cons, h x (by simp), ih (fun e he => h e (by simp [he]))]
    rfl

/-- A full-buffer parse with the canonical fuel always returns normally:
no `ParserError` escapes and the fuel is sufficient. -/
theorem parse_completes (text : List Char) :
    ∃ s : PState, HTMLParserRun text = .ok () s := by
  unfold HTMLParserRun htmlParse
  have hne := @ne_parse text (text.length + 1) ⟨0, []⟩
  have hnf := @nf_parse text (text.length + 1) ⟨0, []⟩
    (by simp) (by simp)
  cases h : _parse text (text.length + 1) ⟨0, []⟩ with
  | ok a s => exact ⟨s, rfl⟩
  | err s => rw [h] at hne; exact hne.elim
  | fuelOut s => rw [h] at hnf; exact hnf.elim

/-! ### Frame reasoning: a rule's behaviour depends only on the cursor -/

theorem shiftRes_shiftRes {α : Type} (r r' : List ParserElement) (x : PResult α) :
    shiftRes r (shiftRes r' x) = shiftRes (r ++ r') x := by
  cases x <;> simp [shiftRes]

theorem frame_pok {α : Type} (a : α) : Frame (pok a) := by
  intro pos r
  simp [pok, shiftRes]

theorem frame_pbind {α β : Type} {p : P α} {f : α → P β}
    (hp : Frame p) (hf : ∀ a, Frame (f a)) : Frame (pbind p f) := by
  intro pos r
  unfold pbind
  rw [hp pos r]
  cases h : p ⟨pos, []⟩ with
  | ok a s1 =>
    dsimp only [shiftRes]
    rw [hf a s1.pos (r ++ s1.result)]
    conv_rhs => rw [show s1 = (⟨s1.pos, s1.result⟩ : PState) from rfl]
    rw [hf a s1.pos s1.result]
    cases hx : f a ⟨s1.pos, []⟩ <;> simp [shiftRes]
  | err s1 => dsimp only [shiftRes]
  | fuelOut s1 => dsimp only [shiftRes]

theorem frame_skip_len {text : List Char} (cnt : Nat) : Frame (_skip_len text cnt) := by
  intro pos r
  by_cases h : text.length < pos + cnt <;>
    simp [_skip_len, h, shiftRes]

theorem frame_skip_match {text pfx : List Char} {cs : Bool} :
    Frame (_skip_match text pfx cs) := by
  intro pos r
  unfold _skip_match
  by_cases h : _match text [pfx] cs ⟨pos, r⟩ = true
  · rw [if_pos h, if_pos (show _match text [pfx] cs ⟨pos, []⟩ = true from h)]
    exact frame_skip_len pfx.length pos r
  · rw [if_neg h, if_neg (show ¬_match text [pfx] cs ⟨pos, []⟩ = true from h)]
    simp [shiftRes]

theorem frame_if_guard {c : Bool} :
    Frame (fun s => if c then (PResult.err s : PResult Unit) else PResult.ok () s) := by
  intro pos r
  by_cases h : c = true <;> simp [h, shiftRes]

theorem frame_try_skip_ws {text ws : List Char} :
    ∀ fuel : Nat, Frame (_try_skip_whitespaces text ws fuel) := by
  intro fuel
  induction fuel with
  | zero =>
    intro pos r
    unfold _try_skip_whitespaces
    by_cases h : _can_skip_whitespace text ws ⟨pos, r⟩ = true
    · rw [if_pos h, if_pos (show _can_skip_whitespace text ws ⟨pos, []⟩ = true from h)]
      simp [shiftRes]
    · rw [if_neg h, if_neg (show ¬_can_skip_whitespace text ws ⟨pos, []⟩ = true from h)]
      simp [shiftRes]
  | succ fuel ih =>
    intro pos r
    unfold _try_skip_whitespaces
    by_cases h : _can_skip_whitespace text ws ⟨pos, r⟩ = true
    · rw [if_pos h, if_pos (show _can_skip_whitespace text ws ⟨pos, []⟩ = true from h)]
      dsimp only
      exact ih (pos + 1) r
    · rw [if_neg h, if_neg (show ¬_can_skip_whitespace text ws ⟨pos, []⟩ = true from h)]
      simp [shiftRes]

theorem frame_pt_loop {text : List Char} {flt : Char → Bool} :
    ∀ (fuel : Nat) (acc : List Char), Frame (_parse_text_loop text flt fuel acc) := by
  intro fuel
  induction fuel with
  | zero =>
    intro acc pos r
    unfold _parse_text_loop
    dsimp only
    cases hc : text[pos]? with
    | none => simp [shiftRes]
    | some c =>
      dsimp only
      by_cases hflt : flt c = true
      · rw [if_pos hflt, if_pos hflt]
        simp [shiftRes]
      · rw [if_neg hflt, if_neg hflt]
        simp [shiftRes]
  | succ fuel ih =>
    intro acc pos r
    unfold _parse_text_loop
    dsimp only
    cases hc : text[pos]? with
    | none => simp [shiftRes]
    | some c =>
      dsimp only
      by_cases hflt : flt c = true
      · rw [if_pos hflt, if_pos hflt]
        exact ih (acc ++ [c]) (pos + 1) r
      · rw [if_neg hflt, if_neg hflt]
        simp [shiftRes]

theorem frame_parse_text {text : List Char} {flt : Char → Bool} {minOne : Bool}
    (fuel : Nat) : Frame (_parse_text text flt minOne fuel) := by
  intro pos r
  unfold _parse_text
  cases minOne with
  | false =>
    rw [if_neg (by simp), if_neg (by simp)]
    exact frame_pt_loop fuel [] pos r
  | true =>
    rw [if_pos rfl, if_pos rfl]
    dsimp only
    cases hc : text[pos]? with
    | none => simp [shiftRes]
    | some c =>
      dsimp only
      by_cases hflt : flt c = true
      · rw [if_pos hflt, if_pos hflt]
        exact frame_pt_loop fuel [c] (pos + 1) r
      · rw [if_neg hflt, if_neg hflt]
        simp [shiftRes]

theorem frame_updater {α : Type} {ty : String} {p : P α} (hp : Frame p) :
    Frame (parser_result_updater ty p) := by
  intro pos r
  unfold parser_result_updater
  rw [hp pos r]
  cases h : p ⟨pos, []⟩ with
  | ok a s1 =>
    dsimp only [shiftRes]
    by_cases hlt : pos < s1.pos
    · rw [if_pos hlt, if_pos hlt]
      simp [shiftRes]
    · rw [if_neg hlt, if_neg hlt]
  | err s1 => dsimp only [shiftRes]
  | fuelOut s1 => dsimp only [shiftRes]

theorem frame_close_tag_body {text : List Char} (fuel : Nat)
    (nm : Option (List Char)) : Frame (__parse_close_tag text fuel nm) := by
  unfold __parse_close_tag
  refine frame_pbind frame_skip_match fun _ => ?_
  refine frame_pbind (frame_try_skip_ws fuel) fun _ => ?_
  refine frame_pbind (frame_updater (frame_parse_text fuel)) fun closeName => ?_
  refine frame_pbind frame_if_guard fun _ => ?_
  refine frame_pbind (frame_try_skip_ws fuel) fun _ => ?_
  exact frame_skip_match

/-- Re-running the close-tag body from the same cursor (with the spans of
a previous successful run already in the list) succeeds again, advancing
to the same position and appending the same span list `Δ` a second
time. -/
theorem close_tag_rerun {text : List Char} {fuel : Nat} {nm : Option (List Char)}
    {s1 s2 : PState} {a : Unit}
    (h : __parse_close_tag text fuel nm s1 = .ok a s2) :
    ∃ Δ : List ParserElement, s2.result = s1.result ++ Δ ∧
      __parse_close_tag text fuel nm ⟨s1.pos, s2.result⟩ =
        .ok a ⟨s2.pos, s2.result ++ Δ⟩ := by
  have hf := @frame_close_tag_body text fuel nm
  have h1 := hf s1.pos s1.result
  rw [show (⟨s1.pos, s1.result⟩ : PState) = s1 from rfl] at h1
  rw [h] at h1
  cases hb : __parse_close_tag text fuel nm ⟨s1.pos, []⟩ with
  | ok a0 s0 =>
    rw [hb] at h1
    dsimp only [shiftRes] at h1
    injection h1 with ha hs
    subst hs
    subst ha
    refine ⟨s0.result, rfl, ?_⟩
    have h2 := hf s1.pos (s1.result ++ s0.result)
    rw [hb] at h2
    dsimp only [shiftRes] at h2
    dsimp only
    rw [h2]
  | err s0 =>
    rw [hb] at h1
    simp [shiftRes] at h1
  | fuelOut s0 =>
    rw [hb] at h1
    simp [shiftRes] at h1

/-! ## The claims -/

set_option maxHeartbeats 2000000 in
/-- **C1 counterexample**: the full parse of the unterminated input
`"<div><span>oops"` yields exactly the spans `tag_name (1,4)`,
`tag_name (6,10)` and `text (11,15)` — contrary to the claim, the result
list contains no `error` span at all (both open tags parse successfully
and close tags are not required by the tag-block rule). -/
theorem claim_C1_counterexample :
    HTMLParserRun "<div><span>oops".data =
      .ok () ⟨15, [⟨1, 4, "tag_name"⟩, ⟨6, 10, "tag_name"⟩, ⟨11, 15, "text"⟩]⟩ ∧
    ∀ e ∈ [(⟨1, 4, "tag_name"⟩ : ParserElement), ⟨6, 10, "tag_name"⟩,
           ⟨11, 15, "text"⟩],
      e.type ≠ "error" :=
  ⟨rfl, by decide⟩

set_option maxHeartbeats 2000000 in
/-- **C1 (amended)**: for the input `"<div><span>oops"` (unterminated), a
full parse yields a `tag_name` span for `div` and a `tag_name` span for
`span`, the trailing `oops` as a `text` span, no `error` span, and the
parse terminates at end-of-buffer (position 15 = length) without
raising. -/
theorem claim_C1_theorem :
    HTMLParserRun "<div><span>oops".data =
      .ok () ⟨15, [⟨1, 4, "tag_name"⟩, ⟨6, 10, "tag_name"⟩, ⟨11, 15, "text"⟩]⟩ ∧
    sliceFrom "<div><span>oops".data 1 3 = "div".data ∧
    sliceFrom "<div><span>oops".data 6 4 = "span".data ∧
    sliceFrom "<div><span>oops".data 11 4 = "oops".data ∧
    ("<div><span>oops".data).length = 15 :=
  ⟨rfl, by decide, by decide, by decide, by decide⟩

set_option maxHeartbeats 2000000 in
/-- **C2 counterexample**: for the malformed doctype input
`"<!doctype html"`, the doctype rule (`parser_restorer` only, no
`parser_error_handler`) rolls the failed attempt back completely —
returning `false` with the state exactly restored — and the full parse
records only the error span `(0,1)` (from the later tolerant open-tag
rule) plus a `text` span: no error span covers the attempted doctype
range `[0,14)`. -/
theorem claim_C2_counterexample :
    __try_parse_doctype "<!doctype html".data 15 ⟨0, []⟩ = .ok false ⟨0, []⟩ ∧
    HTMLParserRun "<!doctype html".data =
      .ok () ⟨14, [⟨0, 1, "error"⟩, ⟨1, 14, "text"⟩]⟩ ∧
    ∀ e ∈ [(⟨0, 1, "error"⟩ : ParserElement), ⟨1, 14, "text"⟩],
      ¬(e.type = "error" ∧ e.l = 0 ∧ 14 ≤ e.r) :=
  ⟨rfl, rfl, by decide⟩

set_option maxHeartbeats 2000000 in
/-- **C2 (amended)**: the doctype rule is speculative only at the call
site: whenever its span-recorded body raises, `__try_parse_doctype`
absorbs the failure by full rollback, returning `false` with the
pre-call state — no error span is recorded for the attempted doctype
range; for `"<!doctype html"` the error span `(0,1)` in the final result
comes from the subsequent tolerant open-tag rule instead. -/
theorem claim_C2_theorem :
    (∀ (text : List Char) (fuel : Nat) (s s' : PState),
        parser_result_updater "doctype" (doctypeBody text fuel) s = .err s' →
        __try_parse_doctype text fuel s = .ok false s) ∧
    HTMLParserRun "<!doctype html".data =
      .ok () ⟨14, [⟨0, 1, "error"⟩, ⟨1, 14, "text"⟩]⟩ := by
  constructor
  · intro text fuel s s' h
    unfold __try_parse_doctype
    exact restorer_eq_err h
  · rfl

/-- Witness for the amended C2 at `"<!doctype html"`: the span-recorded
doctype body raises at position 14 and the wrapper restores state
`(0, [])`. -/
theorem claim_C2_witness :
    parser_result_updater "doctype" (doctypeBody "<!doctype html".data 15) ⟨0, []⟩ =
      .err ⟨14, []⟩ ∧
    __try_parse_doctype "<!doctype html".data 15 ⟨0, []⟩ = .ok false ⟨0, []⟩ :=
  ⟨rfl, claim_C2_theorem.1 "<!doctype html".data 15 ⟨0, []⟩ ⟨14, []⟩ rfl⟩

/-- **C3**: for every input string, constructing `HTMLParser` (a
full-buffer parse via the document rule, `HTMLParserRun`) completes
normally with the accumulated span list: the outcome is a normal `ok`
return — no raised `ParserError` and no fuel exhaustion escapes the top
level. -/
theorem claim_C3_theorem :
    ∀ text : List Char, ∃ s : PState, HTMLParserRun text = .ok () s :=
  parse_completes

/-- **C4**: for every finite input string and any fuel budget of at least
the buffer length, the full-buffer parse never exhausts its fuel: every
loop of the document rule, the tag-block loop and the script/style
raw-content loops makes strict cursor progress or exits, so the parse
terminates. -/
theorem claim_C4_theorem :
    ∀ (text : List Char) (fuel : Nat), text.length ≤ fuel →
      notFuelOut (htmlParse text fuel) := by
  intro text fuel hf
  unfold htmlParse
  exact nf_parse fuel ⟨0, []⟩ (by simp) (by simp; omega)

/-- Witness for C4 at the concrete input `"<div>"` with fuel 5. -/
theorem claim_C4_witness :
    ("<div>".data).length ≤ 5 ∧ notFuelOut (htmlParse "<div>".data 5) :=
  ⟨by decide, claim_C4_theorem "<div>".data 5 (by decide)⟩

/-- **C5**: for every wrapped rule `p` and every parser state `s`, when
the rule fails (raises), the speculative wrapper `parser_restorer`
returns `false` with the state restored exactly to its pre-call value
`s` — both the cursor and the emitted-span list, discarding any spans
the failed attempt emitted — instead of propagating the failure; on
success it returns `true` and keeps all emitted spans and the advanced
cursor. -/
theorem claim_C5_theorem :
    ∀ (α : Type) (p : P α) (s : PState),
      (∀ s' : PState, p s = .err s' → parser_restorer p s = .ok false s) ∧
      (∀ (a : α) (s' : PState), p s = .ok a s' → parser_restorer p s = .ok true s') := by
  intro α p s
  constructor
  · intro s' h
    unfold parser_restorer
    rw [h]
  · intro a s' h
    unfold parser_restorer
    rw [h]

/-- Witness for C5: `openTagBody` on `"<div"` raises after emitting a
`tag_name` span and advancing to position 4; the wrapper discards that
span and restores position 0, returning `false`. -/
theorem claim_C5_witness :
    openTagBody "<div".data 5 ⟨0, []⟩ = .err ⟨4, [⟨1, 4, "tag_name"⟩]⟩ ∧
    parser_restorer (openTagBody "<div".data 5) ⟨0, []⟩ = .ok false ⟨0, []⟩ :=
  ⟨rfl, (claim_C5_theorem (List Char) (openTagBody "<div".data 5) ⟨0, []⟩).1
    ⟨4, [⟨1, 4, "tag_name"⟩]⟩ rfl⟩

/-- **C6**: every span in the result list of a full parse of any input
satisfies `0 ≤ start ≤ end ≤ length(text)` (starts are `Nat`, hence
nonnegative) and its category is in the closed set `categories` — this
holds across the manual cursor reset inside the script/style rules,
which is covered by the universal quantification. -/
theorem claim_C6_theorem (text : List Char) :
    ∀ e ∈ (outState (HTMLParserRun text)).result,
      e.l ≤ e.r ∧ e.r ≤ text.length ∧ e.type ∈ categories := by
  intro e he
  obtain ⟨_, _, Δ, hc, hd⟩ := @step_parse_ text (text.length + 1)
    ⟨0, []⟩ (by simp)
  unfold HTMLParserRun htmlParse at he
  rw [hc] at he
  simp only [List.nil_append] at he
  exact hd e he

set_option maxHeartbeats 2000000 in
/-- Witness for C6 at the span `(1, 4, tag_name)` of the parse of
`"<div><span>oops"`. -/
theorem claim_C6_witness :
    (⟨1, 4, "tag_name"⟩ : ParserElement) ∈
        (outState (HTMLParserRun "<div><span>oops".data)).result ∧
    (1 ≤ 4 ∧ 4 ≤ ("<div><span>oops".data).length ∧ "tag_name" ∈ categories) :=
  have hm : (⟨1, 4, "tag_name"⟩ : ParserElement) ∈
      (outState (HTMLParserRun "<div><span>oops".data)).result := by
    rw [show HTMLParserRun "<div><span>oops".data =
      .ok () ⟨15, [⟨1, 4, "tag_name"⟩, ⟨6, 10, "tag_name"⟩, ⟨11, 15, "text"⟩]⟩ from rfl]
    simp [outState]
  ⟨hm, claim_C6_theorem "<div><span>oops".data ⟨1, 4, "tag_name"⟩ hm⟩

/-- **C7**: the position translator is built from the per-line lengths
(including trailing newlines) of a text snapshot — for `"ab\ncd"` the
recorded sizes are `[3]` — and `convert` starts at line 1 and repeatedly
subtracts the next line's length while it is at most the remaining
offset, incrementing the line (the stated unfolding equation of
`convertLoop`); in particular offset 0 maps to line 1 column 0 and
offset 3 maps to line 2 column 0 (the source renders the pair as the
string `f'{line}.{index}'`). -/
theorem claim_C7_theorem :
    (∀ (i : Nat) (rest : List Nat) (line index : Nat),
        convertLoop (i :: rest) line index =
          if i ≤ index then convertLoop rest (line + 1) (index - i)
          else (line, index)) ∧
    (∀ sizes index, convert sizes index = convertLoop sizes 1 index) ∧
    nSizes "ab\ncd".data = [3] ∧
    convert (nSizes "ab\ncd".data) 0 = (1, 0) ∧
    convert (nSizes "ab\ncd".data) 3 = (2, 0) :=
  ⟨fun i rest line index => rfl, fun sizes index => rfl, by decide, by decide, by decide⟩

/-- **C9**: the re-highlight scheduler's diff computes, per category,
`to_add = new − old` and `to_remove = old − new` as set differences over
range pairs; categories present only in the old mapping are fully
removed and categories present only in the new mapping are fully added;
the generated operation sequence applies all removals before all
additions; and diffing a mapping against itself produces empty
differences and no operations. -/
theorem claim_C9_theorem :
    (∀ (a b : List Rng) (r : Rng), r ∈ rngDiff a b ↔ r ∈ a ∧ r ∉ b) ∧
    (∀ (old new : TagMap) (k : String) (ov nv : List Rng),
        lookupTags old k = some ov → lookupTags new k = some nv →
        (k, rngDiff nv ov) ∈ tags_to_add old new ∧
        (k, rngDiff ov nv) ∈ tags_to_remove old new) ∧
    (∀ (old new : TagMap) (k : String) (ov : List Rng),
        lookupTags old k = some ov → lookupTags new k = none →
        (k, ov) ∈ tags_to_remove old new ∧ ∀ v, (k, v) ∉ tags_to_add old new) ∧
    (∀ (old new : TagMap) (k : String) (nv : List Rng),
        lookupTags old k = none → lookupTags new k = some nv →
        (k, nv) ∈ tags_to_add old new ∧ ∀ v, (k, v) ∉ tags_to_remove old new) ∧
    (∀ old new : TagMap, ∃ rs as_ : List TagOp,
        update_colors_ops old new = rs ++ as_ ∧
        (∀ o ∈ rs, o.isRemoveOp = true) ∧ (∀ o ∈ as_, o.isRemoveOp = false)) ∧
    (∀ m : TagMap, (∀ e ∈ tags_to_add m m, e.2 = []) ∧
        (∀ e ∈ tags_to_remove m m, e.2 = []) ∧ update_colors_ops m m = []) := by
  have hadd_empty : ∀ (m : TagMap), ∀ e ∈ tags_to_add m m, e.2 = [] := by
    intro m e he
    unfold tags_to_add at he
    rw [List.mem_filterMap] at he
    obtain ⟨k, hk, hf⟩ := he
    cases h1 : lookupTags m k with
    | none => rw [h1] at hf; simp at hf
    | some v =>
      rw [h1] at hf
      simp only [Option.some.injEq] at hf
      rw [← hf]
      exact rngDiff_self v
  have hrem_empty : ∀ (m : TagMap), ∀ e ∈ tags_to_remove m m, e.2 = [] := by
    intro m e he
    unfold tags_to_remove at he
    rw [List.mem_filterMap] at he
    obtain ⟨k, hk, hf⟩ := he
    cases h1 : lookupTags m k with
    | none => rw [h1] at hf; simp at hf
    | some v =>
      rw [h1] at hf
      simp only [Option.some.injEq] at hf
      rw [← hf]
      exact rngDiff_self v
  refine ⟨?_, ?_, ?_, ?_, ?_, ?_⟩
  · intro a b r
    exact mem_rngDiff
  · intro old new k ov nv hov hnv
    constructor
    · unfold tags_to_add
      rw [List.mem_filterMap]
      exact ⟨k, mem_diffKeys_of_old hov, by rw [hov, hnv]⟩
    · unfold tags_to_remove
      rw [List.mem_filterMap]
      exact ⟨k, mem_diffKeys_of_old hov, by rw [hov, hnv]⟩
  · intro old new k ov hov hnv
    constructor
    · unfold tags_to_remove
      rw [List.mem_filterMap]
      exact ⟨k, mem_diffKeys_of_old hov, by rw [hov, hnv]⟩
    · intro v hv
      have := tags_to_add_key (k := k) hv rfl
      rw [hov, hnv] at this
      simp at this
  · intro old new k nv hov hnv
    constructor
    · unfold tags_to_add
      rw [List.mem_filterMap]
      exact ⟨k, mem_diffKeys_of_new hnv, by rw [hov, hnv]⟩
    · intro v hv
      have := tags_to_remove_key (k := k) hv rfl
      rw [hov, hnv] at this
      simp at this
  · intro old new
    refine ⟨(tags_to_remove old new).flatMap fun e => e.2.map (TagOp.removeOp e.1),
            (tags_to_add old new).flatMap fun e => e.2.map (TagOp.addOp e.1),
            rfl, ?_, ?_⟩
    · intro o ho
      rw [List.mem_flatMap] at ho
      obtain ⟨e, he, hin⟩ := ho
      rw [List.mem_map] at hin
      obtain ⟨r, hr, hor⟩ := hin
      rw [← hor]
      rfl
    · intro o ho
      rw [List.mem_flatMap] at ho
      obtain ⟨e, he, hin⟩ := ho
      rw [List.mem_map] at hin
      obtain ⟨r, hr, hor⟩ := hin
      rw [← hor]
      rfl
  · intro m
    refine ⟨hadd_empty m, hrem_empty m, ?_⟩
    unfold update_colors_ops
    rw [flatMap_eq_nil_of_forall (fun e he => by rw [hrem_empty m e he]; rfl),
        flatMap_eq_nil_of_forall (fun e he => by rw [hadd_empty m e he]; rfl)]
    rfl

set_option maxHeartbeats 2000000 in
/-- **C8**: for `"<script>if (a < b) {}</script>"`, no `tag_name` span is
emitted for any construct starting inside the script body `[8, 21)` (in
particular not at the `<` at offset 14); the entire body is covered by
exactly one `script` span `(8, 21)`; the trailing `</script>` is
consumed as a matching close tag (its name yields the `tag_name` span
`(23, 29)` and the parse ends at position 30, the buffer length); and no
`error` span is produced. -/
theorem claim_C8_theorem :
    HTMLParserRun "<script>if (a < b) {}</script>".data =
      .ok () ⟨30, [⟨1, 7, "tag_name"⟩, ⟨23, 29, "tag_name"⟩, ⟨8, 21, "script"⟩,
                   ⟨23, 29, "tag_name"⟩]⟩ ∧
    ([(⟨1, 7, "tag_name"⟩ : ParserElement), ⟨23, 29, "tag_name"⟩,
      ⟨8, 21, "script"⟩, ⟨23, 29, "tag_name"⟩].filter
        (fun e => e.type == "tag_name" && decide (8 ≤ e.l) && decide (e.l < 21))) = [] ∧
    ([(⟨1, 7, "tag_name"⟩ : ParserElement), ⟨23, 29, "tag_name"⟩,
      ⟨8, 21, "script"⟩, ⟨23, 29, "tag_name"⟩].filter
        (fun e => e.type == "script")) = [⟨8, 21, "script"⟩] ∧
    ([(⟨1, 7, "tag_name"⟩ : ParserElement), ⟨23, 29, "tag_name"⟩,
      ⟨8, 21, "script"⟩, ⟨23, 29, "tag_name"⟩].filter
        (fun e => e.type == "error")) = [] ∧
    sliceFrom "<script>if (a < b) {}</script>".data 8 13 = "if (a < b) {}".data ∧
    sliceFrom "<script>if (a < b) {}</script>".data 23 6 = "script".data ∧
    ("<script>if (a < b) {}</script>".data).length = 30 := by
  have hmain : HTMLParserRun "<script>if (a < b) {}</script>".data =
      .ok () ⟨30, [⟨1, 7, "tag_name"⟩, ⟨23, 29, "tag_name"⟩, ⟨8, 21, "script"⟩,
                   ⟨23, 29, "tag_name"⟩]⟩ := by
    have hws0 : _try_skip_whitespaces "<script>if (a < b) {}</script>".data
        WHITESPACES 31 ⟨0, []⟩ = .ok () ⟨0, []⟩ := rfl
    have hdt : __try_parse_doctype "<script>if (a < b) {}</script>".data 31 ⟨0, []⟩ =
        .ok false ⟨0, []⟩ := rfl
    have hut0 : __try_parse_user_text "<script>if (a < b) {}</script>".data 31 ⟨0, []⟩ =
        .ok [] ⟨0, []⟩ := rfl
    have hcm : __try_parse_comment "<script>if (a < b) {}</script>".data 31 ⟨0, []⟩ =
        .ok false ⟨0, []⟩ := rfl
    have hoac : __try_parse_open_and_close_tag "<script>if (a < b) {}</script>".data
        31 ⟨0, []⟩ = .ok false ⟨0, []⟩ := rfl
    have hopen : __try_parse_open_tag "<script>if (a < b) {}</script>".data 31 ⟨0, []⟩ =
        .ok (some "script".data) ⟨8, [⟨1, 7, "tag_name"⟩]⟩ := rfl
    have hpt1 : _parse_text "<script>if (a < b) {}</script>".data
        (_end_filter "<".data) false 31 ⟨8, [⟨1, 7, "tag_name"⟩]⟩ =
        .ok "if (a ".data ⟨14, [⟨1, 7, "tag_name"⟩]⟩ := rfl
    have hcl1 : __try_parse_close_tag2 "<script>if (a < b) {}</script>".data 31
        (some "script".data) ⟨14, [⟨1, 7, "tag_name"⟩]⟩ =
        .ok false ⟨14, [⟨1, 7, "tag_name"⟩]⟩ := rfl
    have hlt1 : ltRun "<script>if (a < b) {}</script>".data 31
        ⟨14, [⟨1, 7, "tag_name"⟩]⟩ = .ok () ⟨15, [⟨1, 7, "tag_name"⟩]⟩ := rfl
    have hpt2 : _parse_text "<script>if (a < b) {}</script>".data
        (_end_filter "<".data) false 30 ⟨15, [⟨1, 7, "tag_name"⟩]⟩ =
        .ok " b) {}".data ⟨21, [⟨1, 7, "tag_name"⟩]⟩ := rfl
    have hcl2 : __try_parse_close_tag2 "<script>if (a < b) {}</script>".data 30
        (some "script".data) ⟨21, [⟨1, 7, "tag_name"⟩]⟩ =
        .ok true ⟨30, [⟨1, 7, "tag_name"⟩, ⟨23, 29, "tag_name"⟩]⟩ := rfl
    have hraw : rawLoop "<script>if (a < b) {}</script>".data "script".data 31
        ⟨8, [⟨1, 7, "tag_name"⟩]⟩ =
        .ok () ⟨21, [⟨1, 7, "tag_name"⟩, ⟨23, 29, "tag_name"⟩]⟩ := by
      rw [show (31 : Nat) = 30 + 1 from rfl]
      rw [rawLoop_cont (by rfl) hpt1 hcl1 hlt1]
      rw [show (30 : Nat) = 29 + 1 from rfl]
      rw [rawLoop_step (by rfl) hpt2 hcl2]
    have hscript : __parse_script "<script>if (a < b) {}</script>".data 31
        ⟨8, [⟨1, 7, "tag_name"⟩]⟩ =
        .ok () ⟨21, [⟨1, 7, "tag_name"⟩, ⟨23, 29, "tag_name"⟩, ⟨8, 21, "script"⟩]⟩ := by
      unfold __parse_script
      rw [updater_eq_ok hraw (by decide)]
      rfl
    have hcl3 : __try_parse_close_tag "<script>if (a < b) {}</script>".data 31
        (some "script".data)
        ⟨21, [⟨1, 7, "tag_name"⟩, ⟨23, 29, "tag_name"⟩, ⟨8, 21, "script"⟩]⟩ =
        .ok (some ()) ⟨30, [⟨1, 7, "tag_name"⟩, ⟨23, 29, "tag_name"⟩,
                            ⟨8, 21, "script"⟩, ⟨23, 29, "tag_name"⟩]⟩ := rfl
    have htbb : tagBlockBody "<script>if (a < b) {}</script>".data 31 ⟨0, []⟩ =
        .ok () ⟨30, [⟨1, 7, "tag_name"⟩, ⟨23, 29, "tag_name"⟩, ⟨8, 21, "script"⟩,
                     ⟨23, 29, "tag_name"⟩]⟩ := by
      unfold tagBlockBody
      rw [show _match "<script>if (a < b) {}</script>".data ["</".data] false ⟨0, []⟩ =
        false from rfl]
      rw [if_neg (by simp)]
      rw [hoac]
      dsimp only
      rw [pbind_ok hopen]
      dsimp only
      rw [if_pos rfl]
      rw [pbind_ok hscript, pbind_ok hcl3]
      rfl
    have hblock : __parse_tag_block "<script>if (a < b) {}</script>".data 31 ⟨0, []⟩ =
        .ok (some ()) ⟨30, [⟨1, 7, "tag_name"⟩, ⟨23, 29, "tag_name"⟩,
                            ⟨8, 21, "script"⟩, ⟨23, 29, "tag_name"⟩]⟩ := by
      unfold __parse_tag_block
      exact handler_eq_ok htbb
    have hws1 : _try_skip_whitespaces "<script>if (a < b) {}</script>".data
        WHITESPACES 31 ⟨30, [⟨1, 7, "tag_name"⟩, ⟨23, 29, "tag_name"⟩,
                             ⟨8, 21, "script"⟩, ⟨23, 29, "tag_name"⟩]⟩ =
        .ok () ⟨30, [⟨1, 7, "tag_name"⟩, ⟨23, 29, "tag_name"⟩,
                     ⟨8, 21, "script"⟩, ⟨23, 29, "tag_name"⟩]⟩ := rfl
    have hut1 : __try_parse_user_text "<script>if (a < b) {}</script>".data 31
        ⟨30, [⟨1, 7, "tag_name"⟩, ⟨23, 29, "tag_name"⟩,
              ⟨8, 21, "script"⟩, ⟨23, 29, "tag_name"⟩]⟩ =
        .ok [] ⟨30, [⟨1, 7, "tag_name"⟩, ⟨23, 29, "tag_name"⟩,
                     ⟨8, 21, "script"⟩, ⟨23, 29, "tag_name"⟩]⟩ := rfl
    have hloop : tagBlocksLoop "<script>if (a < b) {}</script>".data 31 ⟨0, []⟩ =
        .ok () ⟨30, [⟨1, 7, "tag_name"⟩, ⟨23, 29, "tag_name"⟩,
                     ⟨8, 21, "script"⟩, ⟨23, 29, "tag_name"⟩]⟩ := by
      rw [show (31 : Nat) = 30 + 1 from rfl]
      rw [tagBlocksLoop_iter (by rfl) hcm hblock hws1 hut1]
      exact tagBlocksLoop_none (by rfl)
    unfold HTMLParserRun htmlParse _parse
    rw [show ("<script>if (a < b) {}</script>".data).length + 1 = 31 from rfl]
    rw [pbind_ok hws0, pbind_ok hdt, pbind_ok hws0, pbind_ok hut0]
    exact hloop
  exact ⟨hmain, by decide, by decide, by decide, by decide, by decide, by decide⟩
theorem claim_C9_witness :
    lookupTags [("tag_name", [(("1.0" : String), ("1.3" : String))])] "tag_name" =
      some [("1.0", "1.3")] ∧
    lookupTags [("tag_name", [(("1.0" : String), ("1.4" : String))])] "tag_name" =
      some [("1.0", "1.4")] ∧
    ("tag_name", rngDiff [("1.0", "1.4")] [("1.0", "1.3")]) ∈
      tags_to_add [("tag_name", [("1.0", "1.3")])] [("tag_name", [("1.0", "1.4")])] :=
  ⟨by decide, by decide,
    ((claim_C9_theorem.2.1 [("tag_name", [("1.0", "1.3")])]
      [("tag_name", [("1.0", "1.4")])] "tag_name" [("1.0", "1.3")] [("1.0", "1.4")]
      (by decide) (by decide)).1)⟩

set_option maxHeartbeats 2000000 in
/-- Concrete family: for every single non-`<` body character `c`, parsing
`"<script>" ++ [c] ++ "</script>"` duplicates the close tag's `tag_name`
span `(11, 17)` — the lookahead's copy before the `script` span `(8, 9)`
and the close-tag parse's copy after it. -/
theorem scriptSingleCharRun :
    ∀ c : Char, c ≠ '<' →
      HTMLParserRun ("<script>".data ++ c :: "</script>".data) =
        .ok () ⟨18, [⟨1, 7, "tag_name"⟩, ⟨11, 17, "tag_name"⟩, ⟨8, 9, "script"⟩,
                     ⟨11, 17, "tag_name"⟩]⟩ := by
  intro c hc
  have hflt : _end_filter "<".data c = true := by
    simp [_end_filter, hc]
  have hws0 : _try_skip_whitespaces ("<script>".data ++ c :: "</script>".data)
      WHITESPACES 19 ⟨0, []⟩ = .ok () ⟨0, []⟩ := rfl
  have hdt : __try_parse_doctype ("<script>".data ++ c :: "</script>".data) 19
      ⟨0, []⟩ = .ok false ⟨0, []⟩ := rfl
  have hut0 : __try_parse_user_text ("<script>".data ++ c :: "</script>".data) 19
      ⟨0, []⟩ = .ok [] ⟨0, []⟩ := rfl
  have hcm : __try_parse_comment ("<script>".data ++ c :: "</script>".data) 19
      ⟨0, []⟩ = .ok false ⟨0, []⟩ := rfl
  have hoac : __try_parse_open_and_close_tag ("<script>".data ++ c :: "</script>".data)
      19 ⟨0, []⟩ = .ok false ⟨0, []⟩ := rfl
  have hopen : __try_parse_open_tag ("<script>".data ++ c :: "</script>".data) 19
      ⟨0, []⟩ = .ok (some "script".data) ⟨8, [⟨1, 7, "tag_name"⟩]⟩ := rfl
  have hpt1 : _parse_text ("<script>".data ++ c :: "</script>".data)
      (_end_filter "<".data) false 19 ⟨8, [⟨1, 7, "tag_name"⟩]⟩ =
      .ok [c] ⟨9, [⟨1, 7, "tag_name"⟩]⟩ := by
    show _parse_text_loop ("<script>".data ++ c :: "</script>".data)
      (_end_filter "<".data) 19 [] ⟨8, [⟨1, 7, "tag_name"⟩]⟩ =
      .ok [c] ⟨9, [⟨1, 7, "tag_name"⟩]⟩
    rw [show (19 : Nat) = 18 + 1 from rfl]
    rw [parse_text_loop_cons 18
      (show ("<script>".data ++ c :: "</script>".data)[
        (⟨8, [⟨1, 7, "tag_name"⟩]⟩ : PState).pos]? = some c from rfl) hflt]
    rfl
  have hcl : __try_parse_close_tag2 ("<script>".data ++ c :: "</script>".data) 19
      (some "script".data) ⟨9, [⟨1, 7, "tag_name"⟩]⟩ =
      .ok true ⟨18, [⟨1, 7, "tag_name"⟩, ⟨11, 17, "tag_name"⟩]⟩ := rfl
  have hraw : rawLoop ("<script>".data ++ c :: "</script>".data) "script".data 19
      ⟨8, [⟨1, 7, "tag_name"⟩]⟩ =
      .ok () ⟨9, [⟨1, 7, "tag_name"⟩, ⟨11, 17, "tag_name"⟩]⟩ := by
    rw [show (19 : Nat) = 18 + 1 from rfl]
    rw [rawLoop_step (by rfl) hpt1 hcl]
  have hscript : __parse_script ("<script>".data ++ c :: "</script>".data) 19
      ⟨8, [⟨1, 7, "tag_name"⟩]⟩ =
      .ok () ⟨9, [⟨1, 7, "tag_name"⟩, ⟨11, 17, "tag_name"⟩, ⟨8, 9, "script"⟩]⟩ := by
    unfold __parse_script
    rw [updater_eq_ok hraw (by decide)]
    rfl
  have hcl3 : __try_parse_close_tag ("<script>".data ++ c :: "</script>".data) 19
      (some "script".data)
      ⟨9, [⟨1, 7, "tag_name"⟩, ⟨11, 17, "tag_name"⟩, ⟨8, 9, "script"⟩]⟩ =
      .ok (some ()) ⟨18, [⟨1, 7, "tag_name"⟩, ⟨11, 17, "tag_name"⟩, ⟨8, 9, "script"⟩,
                          ⟨11, 17, "tag_name"⟩]⟩ := rfl
  have htbb : tagBlockBody ("<script>".data ++ c :: "</script>".data) 19 ⟨0, []⟩ =
      .ok () ⟨18, [⟨1, 7, "tag_name"⟩, ⟨11, 17, "tag_name"⟩, ⟨8, 9, "script"⟩,
                   ⟨11, 17, "tag_name"⟩]⟩ := by
    unfold tagBlockBody
    rw [show _match ("<script>".data ++ c :: "</script>".data) ["</".data] false
      ⟨0, []⟩ = false from rfl]
    rw [if_neg (by simp)]
    rw [hoac]
    dsimp only
    rw [pbind_ok hopen]
    dsimp only
    rw [if_pos rfl]
    rw [pbind_ok hscript, pbind_ok hcl3]
    rfl
  have hblock : __parse_tag_block ("<script>".data ++ c :: "</script>".data) 19
      ⟨0, []⟩ =
      .ok (some ()) ⟨18, [⟨1, 7, "tag_name"⟩, ⟨11, 17, "tag_name"⟩, ⟨8, 9, "script"⟩,
                          ⟨11, 17, "tag_name"⟩]⟩ := by
    unfold __parse_tag_block
    exact handler_eq_ok htbb
  have hws1 : _try_skip_whitespaces ("<script>".data ++ c :: "</script>".data)
      WHITESPACES 19 ⟨18, [⟨1, 7, "tag_name"⟩, ⟨11, 17, "tag_name"⟩,
                           ⟨8, 9, "script"⟩, ⟨11, 17, "tag_name"⟩]⟩ =
      .ok () ⟨18, [⟨1, 7, "tag_name"⟩, ⟨11, 17, "tag_name"⟩,
                   ⟨8, 9, "script"⟩, ⟨11, 17, "tag_name"⟩]⟩ := rfl
  have hut1 : __try_parse_user_text ("<script>".data ++ c :: "</script>".data) 19
      ⟨18, [⟨1, 7, "tag_name"⟩, ⟨11, 17, "tag_name"⟩,
            ⟨8, 9, "script"⟩, ⟨11, 17, "tag_name"⟩]⟩ =
      .ok [] ⟨18, [⟨1, 7, "tag_name"⟩, ⟨11, 17, "tag_name"⟩,
                   ⟨8, 9, "script"⟩, ⟨11, 17, "tag_name"⟩]⟩ := rfl
  have hloop : tagBlocksLoop ("<script>".data ++ c :: "</script>".data) 19 ⟨0, []⟩ =
      .ok () ⟨18, [⟨1, 7, "tag_name"⟩, ⟨11, 17, "tag_name"⟩,
                   ⟨8, 9, "script"⟩, ⟨11, 17, "tag_name"⟩]⟩ := by
    rw [show (19 : Nat) = 18 + 1 from rfl]
    rw [tagBlocksLoop_iter (by rfl) hcm hblock hws1 hut1]
    exact tagBlocksLoop_none (by rfl)
  unfold HTMLParserRun htmlParse _parse
  rw [show ("<script>".data ++ c :: "</script>".data).length + 1 = 19 from rfl]
  rw [pbind_ok hws0, pbind_ok hdt, pbind_ok hws0, pbind_ok hut0]
  exact hloop

/-- **C10 (amended)**: whenever the speculative close-tag lookahead
inside the script/style raw-content loop succeeds, the loop exits
keeping every span the lookahead emitted and resetting only the cursor
to the pre-lookahead position (first conjunct: any input, element name,
fuel and state); the subsequent close-tag parse then re-runs over the
same range and re-emits exactly the same span list `Δ` — so each of the
lookahead's spans, in particular the close tag's `tag_name` span, occurs
twice in the result (second conjunct: any input and state); for the
concrete family `"<script>" ++ [c] ++ "</script>"` (`c ≠ '<'`) the final
result shows the duplicated `tag_name` span `(11, 17)` with the `script`
span between the two copies (third conjunct). The lookahead's copy
precedes a script/style span only when the raw body is nonempty: for an
empty body no script/style span is emitted at all (see the
counterexample). -/
theorem claim_C10_theorem :
    (∀ (text nm : List Char) (fuel : Nat) (s s1 s2 : PState) (v : List Char),
        _is_end text s = false →
        _parse_text text (_end_filter "<".data) false (fuel + 1) s = .ok v s1 →
        __try_parse_close_tag2 text (fuel + 1) (some nm) s1 = .ok true s2 →
        rawLoop text nm (fuel + 1) s = .ok () ⟨s1.pos, s2.result⟩) ∧
    (∀ (text : List Char) (fuel : Nat) (nm : List Char) (s1 s2 : PState),
        __try_parse_close_tag2 text fuel (some nm) s1 = .ok true s2 →
        ∃ Δ : List ParserElement, s2.result = s1.result ++ Δ ∧
          __try_parse_close_tag text fuel (some nm) ⟨s1.pos, s2.result⟩ =
            .ok (some ()) ⟨s2.pos, s2.result ++ Δ⟩) ∧
    (∀ c : Char, c ≠ '<' →
        HTMLParserRun ("<script>".data ++ c :: "</script>".data) =
          .ok () ⟨18, [⟨1, 7, "tag_name"⟩, ⟨11, 17, "tag_name"⟩, ⟨8, 9, "script"⟩,
                       ⟨11, 17, "tag_name"⟩]⟩) := by
  refine ⟨?_, ?_, scriptSingleCharRun⟩
  · intro text nm fuel s s1 s2 v he h1 h2
    exact rawLoop_step he h1 h2
  · intro text fuel nm s1 s2 h
    unfold __try_parse_close_tag2 at h
    obtain ⟨a, hb⟩ := restorer_true_ok h
    obtain ⟨Δ, h1, h2⟩ := close_tag_rerun hb
    refine ⟨Δ, h1, ?_⟩
    unfold __try_parse_close_tag
    cases a
    exact handler_eq_ok h2

set_option maxHeartbeats 2000000 in
/-- **C10 counterexample**: the original claim fails on the in-scope
well-formed raw-content input `"<script></script>"` (empty body): the
parse yields `[(1,7,tag_name), (10,16,tag_name), (10,16,tag_name)]` —
the close tag's `tag_name` span is duplicated, but no `script` (or
`style`) span is emitted at all (the raw loop does not advance the
cursor, so the span recorder is skipped), so the lookahead's copy cannot
appear "before the script/style span". -/
theorem claim_C10_counterexample :
    HTMLParserRun "<script></script>".data =
      .ok () ⟨17, [⟨1, 7, "tag_name"⟩, ⟨10, 16, "tag_name"⟩, ⟨10, 16, "tag_name"⟩]⟩ ∧
    ([(⟨1, 7, "tag_name"⟩ : ParserElement), ⟨10, 16, "tag_name"⟩,
      ⟨10, 16, "tag_name"⟩].filter (fun e => e.type == "script")) = [] ∧
    ([(⟨1, 7, "tag_name"⟩ : ParserElement), ⟨10, 16, "tag_name"⟩,
      ⟨10, 16, "tag_name"⟩].filter (fun e => e.type == "style")) = [] ∧
    ([(⟨1, 7, "tag_name"⟩ : ParserElement), ⟨10, 16, "tag_name"⟩,
      ⟨10, 16, "tag_name"⟩].count ⟨10, 16, "tag_name"⟩) = 2 ∧
    sliceFrom "<script></script>".data 1 6 = "script".data ∧
    sliceFrom "<script></script>".data 10 6 = "script".data ∧
    ("<script></script>".data).length = 17 := by
  have hmain : HTMLParserRun "<script></script>".data =
      .ok () ⟨17, [⟨1, 7, "tag_name"⟩, ⟨10, 16, "tag_name"⟩, ⟨10, 16, "tag_name"⟩]⟩ := by
    have hws0 : _try_skip_whitespaces "<script></script>".data WHITESPACES 18 ⟨0, []⟩ =
        .ok () ⟨0, []⟩ := rfl
    have hdt : __try_parse_doctype "<script></script>".data 18 ⟨0, []⟩ =
        .ok false ⟨0, []⟩ := rfl
    have hut0 : __try_parse_user_text "<script></script>".data 18 ⟨0, []⟩ =
        .ok [] ⟨0, []⟩ := rfl
    have hcm : __try_parse_comment "<script></script>".data 18 ⟨0, []⟩ =
        .ok false ⟨0, []⟩ := rfl
    have hoac : __try_parse_open_and_close_tag "<script></script>".data 18 ⟨0, []⟩ =
        .ok false ⟨0, []⟩ := rfl
    have hopen : __try_parse_open_tag "<script></script>".data 18 ⟨0, []⟩ =
        .ok (some "script".data) ⟨8, [⟨1, 7, "tag_name"⟩]⟩ := rfl
    have hpt : _parse_text "<script></script>".data (_end_filter "<".data) false 18
        ⟨8, [⟨1, 7, "tag_name"⟩]⟩ = .ok [] ⟨8, [⟨1, 7, "tag_name"⟩]⟩ := rfl
    have hcl : __try_parse_close_tag2 "<script></script>".data 18
        (some "script".data) ⟨8, [⟨1, 7, "tag_name"⟩]⟩ =
        .ok true ⟨17, [⟨1, 7, "tag_name"⟩, ⟨10, 16, "tag_name"⟩]⟩ := rfl
    have hraw : rawLoop "<script></script>".data "script".data 18
        ⟨8, [⟨1, 7, "tag_name"⟩]⟩ =
        .ok () ⟨8, [⟨1, 7, "tag_name"⟩, ⟨10, 16, "tag_name"⟩]⟩ := by
      rw [show (18 : Nat) = 17 + 1 from rfl]
      rw [rawLoop_step (by rfl) hpt hcl]
    have hscript : __parse_script "<script></script>".data 18
        ⟨8, [⟨1, 7, "tag_name"⟩]⟩ =
        .ok () ⟨8, [⟨1, 7, "tag_name"⟩, ⟨10, 16, "tag_name"⟩]⟩ := by
      unfold __parse_script
      exact updater_eq_ok_stay hraw (by decide)
    have hcl3 : __try_parse_close_tag "<script></script>".data 18
        (some "script".data) ⟨8, [⟨1, 7, "tag_name"⟩, ⟨10, 16, "tag_name"⟩]⟩ =
        .ok (some ()) ⟨17, [⟨1, 7, "tag_name"⟩, ⟨10, 16, "tag_name"⟩,
                            ⟨10, 16, "tag_name"⟩]⟩ := rfl
    have htbb : tagBlockBody "<script></script>".data 18 ⟨0, []⟩ =
        .ok () ⟨17, [⟨1, 7, "tag_name"⟩, ⟨10, 16, "tag_name"⟩,
                     ⟨10, 16, "tag_name"⟩]⟩ := by
      unfold tagBlockBody
      rw [show _match "<script></script>".data ["</".data] false ⟨0, []⟩ =
        false from rfl]
      rw [if_neg (by simp)]
      rw [hoac]
      dsimp only
      rw [pbind_ok hopen]
      dsimp only
      rw [if_pos rfl]
      rw [pbind_ok hscript, pbind_ok hcl3]
      rfl
    have hblock : __parse_tag_block "<script></script>".data 18 ⟨0, []⟩ =
        .ok (some ()) ⟨17, [⟨1, 7, "tag_name"⟩, ⟨10, 16, "tag_name"⟩,
                            ⟨10, 16, "tag_name"⟩]⟩ := by
      unfold __parse_tag_block
      exact handler_eq_ok htbb
    have hws1 : _try_skip_whitespaces "<script></script>".data WHITESPACES 18
        ⟨17, [⟨1, 7, "tag_name"⟩, ⟨10, 16, "tag_name"⟩, ⟨10, 16, "tag_name"⟩]⟩ =
        .ok () ⟨17, [⟨1, 7, "tag_name"⟩, ⟨10, 16, "tag_name"⟩,
                     ⟨10, 16, "tag_name"⟩]⟩ := rfl
    have hut1 : __try_parse_user_text "<script></script>".data 18
        ⟨17, [⟨1, 7, "tag_name"⟩, ⟨10, 16, "tag_name"⟩, ⟨10, 16, "tag_name"⟩]⟩ =
        .ok [] ⟨17, [⟨1, 7, "tag_name"⟩, ⟨10, 16, "tag_name"⟩,
                     ⟨10, 16, "tag_name"⟩]⟩ := rfl
    have hloop : tagBlocksLoop "<script></script>".data 18 ⟨0, []⟩ =
        .ok () ⟨17, [⟨1, 7, "tag_name"⟩, ⟨10, 16, "tag_name"⟩,
                     ⟨10, 16, "tag_name"⟩]⟩ := by
      rw [show (18 : Nat) = 17 + 1 from rfl]
      rw [tagBlocksLoop_iter (by rfl) hcm hblock hws1 hut1]
      exact tagBlocksLoop_none (by rfl)
    unfold HTMLParserRun htmlParse _parse
    rw [show ("<script></script>".data).length + 1 = 18 from rfl]
    rw [pbind_ok hws0, pbind_ok hdt, pbind_ok hws0, pbind_ok hut0]
    exact hloop
  exact ⟨hmain, by decide, by decide, by decide, by decide, by decide, by decide⟩

/-- Witness for the amended C10: the lookahead at position 8 of
`"<script></script>"` succeeds emitting the `tag_name` span `(10, 16)`,
and the subsequent close-tag parse from the reset cursor re-emits
exactly that span. -/
theorem claim_C10_witness :
    (__try_parse_close_tag2 "<script></script>".data 18 (some "script".data)
        ⟨8, [⟨1, 7, "tag_name"⟩]⟩ =
      .ok true ⟨17, [⟨1, 7, "tag_name"⟩, ⟨10, 16, "tag_name"⟩]⟩) ∧
    (∃ Δ : List ParserElement,
      [(⟨1, 7, "tag_name"⟩ : ParserElement), ⟨10, 16, "tag_name"⟩] =
        [(⟨1, 7, "tag_name"⟩ : ParserElement)] ++ Δ ∧
      __try_parse_close_tag "<script></script>".data 18 (some "script".data)
          ⟨8, [⟨1, 7, "tag_name"⟩, ⟨10, 16, "tag_name"⟩]⟩ =
        .ok (some ()) ⟨17, [(⟨1, 7, "tag_name"⟩ : ParserElement),
                            ⟨10, 16, "tag_name"⟩] ++ Δ⟩) :=
  ⟨rfl, claim_C10_theorem.2.1 "<script></script>".data 18 "script".data
    ⟨8, [⟨1, 7, "tag_name"⟩]⟩ ⟨17, [⟨1, 7, "tag_name"⟩, ⟨10, 16, "tag_name"⟩]⟩ rfl⟩

end HtmlEd
